import Mathlib

/-!
# programming_paradigms_web: `src/app.js`

A shallow embedding of the data generator (`Dataset`), the two statistics
engines (`Analyzer.imperative`, `Analyzer.functional`) and the generate
request handler (`handleGenerate`) of `src/app.js`, with the properties the
specification states about them.

Modelling conventions.

* JavaScript numbers that hold prices, ratings, sums and averages are exact
  rationals (`ℚ`); the accumulators of the minimum and the maximum, which
  start at `Infinity` and `-Infinity`, are `ExtNum`; an entry of
  `avgPriceByCat`, which can be `NaN`, is a `JsNum`.
* Records are objects with an identity: they live in a store (`heap`) and
  `this.items` is a list of references (addresses, natural numbers), so that
  a write `it.id = ...` is seen through every reference to the object. The
  array handed to `add` is an array of its own, not `this.items` itself.
* A category is any string. An object literal `{}` used as a mapping is the
  list of its own properties in creation order (`Obj`) together with what it
  inherits from `Object.prototype`; every call of `imperative` or
  `functional` starts from the standard `Object.prototype`. The order in
  which an engine enumerates integer-like keys is not represented.
* `Math.random()` is a stream of draws in `[0, 1)`; `Math.exp`, `Math.log`,
  `Math.sqrt`, `Math.cos` and `Math.PI` are parameters (`JsMath`).
* A method that mutates state returns the new state.
-/

namespace ParadigmsWeb

/-! ## util -/

/-- Source: `function clamp(x, lo, hi) { return Math.min(hi, Math.max(lo, x)); }` -/
def clamp (x lo hi : ℚ) : ℚ := min hi (max lo x)

/-- The functions and the constant of the JavaScript `Math` object that
`randn` and `Dataset.generate` call. -/
structure JsMath where
  exp : ℚ → ℚ
  log : ℚ → ℚ
  sqrt : ℚ → ℚ
  cos : ℚ → ℚ
  PI : ℚ

/-- One outcome of `Math.random()`: a number in `[0, 1)`. -/
structure UnitDraw where
  val : ℚ
  nonneg : 0 ≤ val
  lt_one : val < 1

/-- Box-Muller `randn()`; `r₁` and `r₂` are its two `Math.random()` draws. -/
def randn (M : JsMath) (r₁ r₂ : UnitDraw) : ℚ :=
  let u := 1 - r₁.val
  let v := 1 - r₂.val
  M.sqrt (-2 * M.log u) * M.cos (2 * M.PI * v)

/-- The sum `arr.reduce((a, b) => a + b, 0)`. -/
def sumReduce (arr : List ℚ) : ℚ := arr.foldl (fun a b => a + b) 0

/-- Source: `function mean(arr)`, that is
`arr.length ? arr.reduce(...) / arr.length : 0`. -/
def mean (arr : List ℚ) : ℚ :=
  if arr.length ≠ 0 then sumReduce arr / (arr.length : ℚ) else 0

/-! ## Records and the `Dataset` class -/

/-- The fields of a record object `{ id, categoria, precio, rating }`; an
object made by a caller may have no `id`, or any number as its `id`. -/
structure Item where
  id : Option Int
  categoria : String
  precio : ℚ
  rating : ℚ
deriving DecidableEq

/-- The fields `items` and `nextId` of the `Dataset` object, with the store the
record objects live in: `heap a` is the object at address `a`, and the
addresses below `brk` are those of the objects made so far. -/
structure Dataset where
  heap : Nat → Item
  brk : Nat
  items : List Nat
  nextId : Nat

/-- Source: `const cats = ['hogar', 'deporte', 'libros', 'electronica', 'mercado']` -/
def cats : List String := ["hogar", "deporte", "libros", "electronica", "mercado"]

/-- The lookup `{ hogar: 30, deporte: 45, libros: 15, electronica: 120, mercado: 10 }[c]`;
`none` is `undefined`. -/
def base : String → Option ℚ
  | "hogar" => some 30
  | "deporte" => some 45
  | "libros" => some 15
  | "electronica" => some 120
  | "mercado" => some 10
  | _ => none

/-- The index `Math.floor(Math.random() * cats.length)`; it lies inside `cats`
because the draw lies in `[0, 1)`. -/
def pickIndex (r : UnitDraw) : Fin 5 :=
  ⟨(Int.floor (r.val * (cats.length : ℚ))).toNat, by
    have h5 : ((cats.length : ℕ) : ℚ) = 5 := by simp [cats]
    have hlt : Int.floor (r.val * (cats.length : ℚ)) < 5 := by
      rw [Int.floor_lt, h5]
      have := r.lt_one
      push_cast
      linarith
    omega⟩

/-- The number `base` holds for the label `cats[i]`: every label of `cats` is a
key of the object literal. -/
def baseOf (i : Fin 5) : ℚ :=
  (base (cats.get i)).get (by revert i; decide)

/-- The body of the loop of `generate` up to the object literal: iteration `i`
consumes the draws `5 * i`, ..., `5 * i + 4` of the stream (one for the
category, two for each call of `randn`) and builds the record with id `id`. -/
def mkItem (M : JsMath) (rnd : Nat → UnitDraw) (i id : Nat) : Item :=
  let c := cats.get (pickIndex (rnd (5 * i)))
  let price :=
    clamp (baseOf (pickIndex (rnd (5 * i))) +
      M.exp (randn M (rnd (5 * i + 1)) (rnd (5 * i + 2)) * 0.6 + 2) / 10 - 5) 1 999
  let rating := clamp (3.2 + randn M (rnd (5 * i + 3)) (rnd (5 * i + 4)) * 0.8) 1 5
  ⟨some (id : Int), c, price, rating⟩

/-- The variables the loop of `generate` assigns to: the array `out`,
`this.nextId`, and the store with its mark. -/
structure GenState where
  out : List Nat
  nextId : Nat
  heap : Nat → Item
  brk : Nat

namespace Dataset

/-- Source: `constructor() { this.items = []; this.nextId = 1; }`, in a store
without any record object. -/
def new : Dataset := ⟨fun _ => ⟨none, "", 0, 0⟩, 0, [], 1⟩

/-- A caller of the class evaluates an object literal: the object is new in the
store. The result is the reference to it and the new state. -/
def alloc (ds : Dataset) (obj : Item) : Nat × Dataset :=
  (ds.brk, ⟨Function.update ds.heap ds.brk obj, ds.brk + 1, ds.items, ds.nextId⟩)

/-- The records `this.items` refers to, read from the store in order. -/
def records (ds : Dataset) : List Item := ds.items.map ds.heap

/-- Source: `size() { return this.items.length; }` -/
def size (ds : Dataset) : Nat := ds.items.length

/-- One iteration of the loop of `generate`: the object literal makes a new
object, `out.push(...)` stores the reference to it, `this.nextId++`. -/
def generateStep (M : JsMath) (rnd : Nat → UnitDraw) (st : GenState) (i : Nat) : GenState :=
  ⟨st.out ++ [st.brk], st.nextId + 1,
    Function.update st.heap st.brk (mkItem M rnd i st.nextId), st.brk + 1⟩

/-- Method `generate(n)`: the loop `for (let i = 0; i < n; i++)`, then
`this.items.push(...out); return out;`. The result is `out` and the new
state. -/
def generate (M : JsMath) (rnd : Nat → UnitDraw) (ds : Dataset) (n : Nat) :
    List Nat × Dataset :=
  let st := (List.range n).foldl (generateStep M rnd) ⟨[], ds.nextId, ds.heap, ds.brk⟩
  (st.out, ⟨st.heap, st.brk, ds.items ++ st.out, st.nextId⟩)

/-- One iteration of the loop of `add`: `it.id = this.nextId++` writes the
field of the object `it` refers to, `this.items.push(it)` stores the
reference. -/
def addStep (ds : Dataset) (it : Nat) : Dataset :=
  ⟨Function.update ds.heap it
      ⟨some (ds.nextId : Int), (ds.heap it).categoria, (ds.heap it).precio, (ds.heap it).rating⟩,
    ds.brk, ds.items ++ [it], ds.nextId + 1⟩

/-- Source: `add(items) { for (const it of items) { ... } }`, for an array
`items` other than `this.items`. -/
def add (ds : Dataset) (items : List Nat) : Dataset :=
  items.foldl addStep ds

/-- Source: `clear() { this.items = []; this.nextId = 1; }` -/
def clear (ds : Dataset) : Dataset := ⟨ds.heap, ds.brk, [], 1⟩

/-- The call `Array.prototype.slice(0, end)` for an integer `end`: a negative
`end` counts from the end of the array. -/
def slice0 {α : Type} (xs : List α) (e : Int) : List α :=
  let len : Int := xs.length
  let final : Int := if e < 0 then max (len + e) 0 else min e len
  xs.take final.toNat

/-- Source: `head(n = 10) { return this.items.slice(0, n); }`: the result is the
slice and the state, which the method does not assign to. -/
def head (ds : Dataset) (n : Int) : List Nat × Dataset :=
  (slice0 ds.items n, ds)

end Dataset

/-! ## The `Analyzer` class -/

/-- A JavaScript number that may be `Infinity` or `-Infinity`. -/
inductive ExtNum where
  | negInf
  | fin (q : ℚ)
  | posInf
deriving DecidableEq

namespace ExtNum

/-- The comparison `a < b` of JavaScript numbers. -/
def lt : ExtNum → ExtNum → Bool
  | negInf, negInf => false
  | negInf, _ => true
  | fin _, negInf => false
  | fin a, fin b => decide (a < b)
  | fin _, posInf => true
  | posInf, _ => false

/-- The value of `Math.min(a, b)`. -/
def min (a b : ExtNum) : ExtNum := if lt b a then b else a

/-- The value of `Math.max(a, b)`. -/
def max (a b : ExtNum) : ExtNum := if lt a b then b else a

end ExtNum

/-- A JavaScript number that may be `NaN`. -/
inductive JsNum where
  | nan
  | num (q : ℚ)
deriving DecidableEq

/-- The exception a call of something that is not a function raises. -/
inductive JsError where
  | typeError
deriving DecidableEq

/-- The names of the function-valued members of the standard
`Object.prototype`. -/
def objectPrototypeFunctions : List String :=
  ["constructor", "hasOwnProperty", "isPrototypeOf", "propertyIsEnumerable",
    "toLocaleString", "toString", "valueOf", "__defineGetter__", "__defineSetter__",
    "__lookupGetter__", "__lookupSetter__"]

/-- The names of the members of the standard `Object.prototype`: under
`__proto__` an object literal finds `Object.prototype` itself. -/
def objectPrototypeKeys : List String := "__proto__" :: objectPrototypeFunctions

/-- What a lookup `o[k]` finds when `k` is not an own property of `o` and the
value found is truthy. -/
inductive Inherited where
  | function
  | objectPrototype
deriving DecidableEq

/-- The own properties of an object literal used as a mapping, in creation
order. -/
abbrev Obj (β : Type) := List (String × β)

namespace Obj

/-- The own property `k` of `o`, if there is one. -/
def get {β : Type} : Obj β → String → Option β
  | [], _ => none
  | (k', v) :: t, k => if k' = k then some v else get t k

/-- The assignment `o[k] = v` for a key that is not an own property of `o`. -/
def insertNew {β : Type} (o : Obj β) (k : String) (v : β) : Obj β := o ++ [(k, v)]

/-- An in-place update of the value stored under the own property `k`
(`o[k].f += ...`, `o[k].push(...)`). -/
def modify {β : Type} (f : β → β) : Obj β → String → Obj β
  | [], _ => []
  | (k', v) :: t, k => if k' = k then (k', f v) :: t else (k', v) :: modify f t k

/-- The own keys, as `for (const k in o)` and `Object.entries(o)` visit them. -/
def keys {β : Type} (o : Obj β) : List String := o.map Prod.fst

/-- The truthy inherited value the lookup `o[k]` yields, if it yields one: `k`
is not an own property of `o` and names a member of `Object.prototype`. The
members `count` and `sumPrice` that `imperative` may add to
`Object.prototype` hold `NaN`, which is falsy like `undefined`. -/
def inherited {β : Type} (o : Obj β) (k : String) : Option Inherited :=
  if (get o k).isSome then none
  else if k = "__proto__" then some Inherited.objectPrototype
  else if k ∈ objectPrototypeFunctions then some Inherited.function
  else none

end Obj

/-- An entry `{ count, sumPrice }` of `byCat`. -/
structure CatAcc where
  count : Nat
  sumPrice : ℚ
deriving DecidableEq

/-- The object both engines return. -/
structure Stats where
  n : Nat
  avgPrice : ℚ
  avgRating : ℚ
  minPrice : ExtNum
  maxPrice : ExtNum
  avgPriceByCat : Obj JsNum
deriving DecidableEq

/-- The variables the loop of `imperative` assigns to; `polluted` says that the
loop has written `count` and `sumPrice` on `Object.prototype`. -/
structure ImpState where
  sumPrice : ℚ
  sumRating : ℚ
  minP : ExtNum
  maxP : ExtNum
  byCat : Obj CatAcc
  polluted : Bool

namespace Analyzer

/-- The three statements on `byCat` in the loop of `imperative`, when
`byCat[it.categoria]` is an own property or falsy:
`if (!byCat[c]) byCat[c] = { count: 0, sumPrice: 0 }; byCat[c].count += 1;
byCat[c].sumPrice += it.precio;` -/
def tally (byCat : Obj CatAcc) (it : Item) : Obj CatAcc :=
  let byCat₁ :=
    if (Obj.get byCat it.categoria).isNone then Obj.insertNew byCat it.categoria ⟨0, 0⟩
    else byCat
  let byCat₂ := Obj.modify (fun a => ⟨a.count + 1, a.sumPrice⟩) byCat₁ it.categoria
  Obj.modify (fun a => ⟨a.count, a.sumPrice + it.precio⟩) byCat₂ it.categoria

/-- The body of the loop of `imperative` for the record `it`. When
`byCat[it.categoria]` is an inherited function the test `!byCat[c]` fails and
the two `+=` write on that function, which `byCat` does not show; when it is
`Object.prototype` (for `__proto__`) they write `NaN` to
`Object.prototype.count` and `Object.prototype.sumPrice`. -/
def impStep (s : ImpState) (it : Item) : ImpState :=
  let sumPrice := s.sumPrice + it.precio
  let sumRating := s.sumRating + it.rating
  let minP := if ExtNum.lt (ExtNum.fin it.precio) s.minP then ExtNum.fin it.precio else s.minP
  let maxP := if ExtNum.lt s.maxP (ExtNum.fin it.precio) then ExtNum.fin it.precio else s.maxP
  match Obj.inherited s.byCat it.categoria with
  | none => ⟨sumPrice, sumRating, minP, maxP, tally s.byCat it, s.polluted⟩
  | some Inherited.function => ⟨sumPrice, sumRating, minP, maxP, s.byCat, s.polluted⟩
  | some Inherited.objectPrototype => ⟨sumPrice, sumRating, minP, maxP, s.byCat, true⟩

/-- The keys `for (const k in byCat)` visits after the own ones: the enumerable
members of `Object.prototype` that no own property hides, each read as
`NaN / NaN`. -/
def inheritedAvg (s : ImpState) : Obj JsNum :=
  if s.polluted then
    (["count", "sumPrice"].filter (fun k => (Obj.get s.byCat k).isNone)).map
      (fun k => (k, JsNum.nan))
  else []

/-- Method `imperative()`: one pass with accumulators; the loop visits
`this.ds.items[0]`, ..., `this.ds.items[n - 1]` with `n = this.ds.size()`,
then `for (const k in byCat)` fills `avgPriceByCat`. -/
def imperative (ds : Dataset) : Stats :=
  let n := ds.size
  let s := ((ds.items.take n).map ds.heap).foldl impStep
    ⟨0, 0, ExtNum.posInf, ExtNum.negInf, [], false⟩
  let avgPrice := if n ≠ 0 then s.sumPrice / (n : ℚ) else 0
  let avgRating := if n ≠ 0 then s.sumRating / (n : ℚ) else 0
  let avgPriceByCat :=
    s.byCat.map (fun e => (e.1, JsNum.num (e.2.sumPrice / (e.2.count : ℚ)))) ++ inheritedAvg s
  ⟨n, avgPrice, avgRating, s.minP, s.maxP, avgPriceByCat⟩

/-- The effect of `(acc[c] ||= []).push(it.precio)` when `acc[c]` is an own
property or `undefined`. -/
def pushPrice (acc : Obj (List ℚ)) (it : Item) : Obj (List ℚ) :=
  let acc₁ :=
    if (Obj.get acc it.categoria).isNone then Obj.insertNew acc it.categoria [] else acc
  Obj.modify (fun vals => vals ++ [it.precio]) acc₁ it.categoria

/-- The callback of the grouping `reduce`:
`(acc[it.categoria] ||= []).push(it.precio); return acc;`. When
`acc[it.categoria]` is an inherited member of `Object.prototype` it has no
`push`, and the call raises a `TypeError`. -/
def groupStep (acc : Obj (List ℚ)) (it : Item) : Except JsError (Obj (List ℚ)) :=
  match Obj.inherited acc it.categoria with
  | none => Except.ok (pushPrice acc it)
  | some _ => Except.error JsError.typeError

/-- The grouping `arr.reduce(..., {})` from the accumulator `acc` on: it stops
at the first exception. -/
def groupReduce : Obj (List ℚ) → List Item → Except JsError (Obj (List ℚ))
  | acc, [] => Except.ok acc
  | acc, it :: t =>
    match groupStep acc it with
    | Except.ok acc' => groupReduce acc' t
    | Except.error e => Except.error e

/-- Method `functional()`: independent `reduce` passes over `this.ds.items`. -/
def functional (ds : Dataset) : Except JsError Stats :=
  let arr := ds.records
  let n := arr.length
  let sumPrice := arr.foldl (fun acc it => acc + it.precio) 0
  let sumRating := arr.foldl (fun acc it => acc + it.rating) 0
  let avgPrice := if n ≠ 0 then sumPrice / (n : ℚ) else 0
  let avgRating := if n ≠ 0 then sumRating / (n : ℚ) else 0
  let minPrice := arr.foldl (fun m it => ExtNum.min m (ExtNum.fin it.precio)) ExtNum.posInf
  let maxPrice := arr.foldl (fun m it => ExtNum.max m (ExtNum.fin it.precio)) ExtNum.negInf
  match groupReduce [] arr with
  | Except.ok groups =>
    let avgPriceByCat := groups.map (fun e => (e.1, JsNum.num (mean e.2)))
    Except.ok ⟨n, avgPrice, avgRating, minPrice, maxPrice, avgPriceByCat⟩
  | Except.error e => Except.error e

end Analyzer

/-! ## main logic -/

/-- The number of times the body of `for (let i = 0; i < n; i++)` runs when
`n` is the result of `parseInt` (`none` is `NaN`): `i < NaN` is false, and
`0 < n` is false for `n <= 0`. -/
def loopCount : Option Int → Nat
  | none => 0
  | some z => z.toNat

/-- The effect of `handleGenerate()` on the global `ds`, for the value `size`
of `parseInt($('#size').value, 10)`: `ds.clear(); ds.generate(size);`. The
rendering calls that follow do not touch `ds`. -/
def handleGenerate (M : JsMath) (rnd : Nat → UnitDraw) (size : Option Int) (ds : Dataset) :
    Dataset :=
  (Dataset.generate M rnd (Dataset.clear ds) (loopCount size)).2

/-! ## Notions of the specification -/

/-- The records `generate(n)` returns, read from the store after the call. -/
def Dataset.generated (M : JsMath) (rnd : Nat → UnitDraw) (ds : Dataset) (n : Nat) :
    List Item :=
  (Dataset.generate M rnd ds n).1.map (Dataset.generate M rnd ds n).2.heap

/-- The greatest id among `records`, `0` when there is none. -/
def maxId (records : List Item) : Int :=
  records.foldr (fun it m => max (it.id.getD 0) m) 0

/-- The prices of the records of category `c`, in insertion order. -/
def pricesOf (c : String) (records : List Item) : List ℚ :=
  (records.filter (fun it => it.categoria = c)).map Item.precio

/-- The order `a < b` of two ids that are both numbers. -/
def idLt : Option Int → Option Int → Prop
  | some x, some y => x < y
  | _, _ => False

instance (a b : Option Int) : Decidable (idLt a b) := by
  unfold idLt
  split <;> infer_instance

/-- The ids of the stored records are pairwise distinct and strictly increasing
in insertion order, and `nextId` is greater than each of them. -/
def IdsInv (ds : Dataset) : Prop :=
  (ds.records.map Item.id).Nodup ∧ (ds.records.map Item.id).Pairwise idLt ∧
    ∀ it ∈ ds.records, idLt it.id (some (ds.nextId : Int))

instance (ds : Dataset) : Decidable (IdsInv ds) := by
  unfold IdsInv
  infer_instance

/-- Every stored reference refers to an object made so far. -/
def Dataset.Allocated (ds : Dataset) : Prop := ∀ a ∈ ds.items, a < ds.brk

/-- What holds of the counter in every reachable state, also after `add` of
objects that are stored already: the stored references refer to objects made
so far, every stored id is a number below `nextId`, and `nextId` is `1` on an
empty Dataset and one more than some stored id otherwise. -/
def CounterInv (ds : Dataset) : Prop :=
  ds.Allocated ∧ (∀ it ∈ ds.records, ∃ z : Int, it.id = some z ∧ z < (ds.nextId : Int)) ∧
    1 ≤ ds.nextId ∧ (ds.items = [] → ds.nextId = 1) ∧
    (ds.items ≠ [] → ∃ it ∈ ds.records, it.id = some ((ds.nextId : Int) - 1))

/-- The array handed to `add` holds pairwise distinct objects, none of which
the Dataset stores already. -/
def FreshArgs (ds : Dataset) (args : List Nat) : Prop :=
  args.Nodup ∧ ∀ a ∈ args, a ∉ ds.items

/-- The records `add` appends for the objects `args` when the counter is `m`:
the ids `m, m + 1, ...` with the category, price and rating of each object. -/
def addedRecords (heap : Nat → Item) : Nat → List Nat → List Item
  | _, [] => []
  | m, a :: t =>
    ⟨some (m : Int), (heap a).categoria, (heap a).precio, (heap a).rating⟩
      :: addedRecords heap (m + 1) t

/-- No record has a category that names a member of `Object.prototype`. -/
def NoInherited (records : List Item) : Prop :=
  ∀ it ∈ records, it.categoria ∉ objectPrototypeKeys

/-- The states from `new Dataset()` on, under `generate`, `add` and `clear`
and the making of objects by a caller; `add` receives references to objects
made so far. -/
inductive Reachable : Dataset → Prop where
  | new : Reachable Dataset.new
  | alloc (ds : Dataset) (obj : Item) : Reachable ds → Reachable (ds.alloc obj).2
  | generate (M : JsMath) (rnd : Nat → UnitDraw) (ds : Dataset) (n : Nat) :
      Reachable ds → Reachable (Dataset.generate M rnd ds n).2
  | add (ds : Dataset) (args : List Nat) :
      Reachable ds → (∀ a ∈ args, a < ds.brk) → Reachable (ds.add args)
  | clear (ds : Dataset) : Reachable ds → Reachable ds.clear

/-- What `groups` holds after the records `pre`: no key twice, and under each
category the prices of its records, a category without records being absent. -/
def GroupsInv (acc : Obj (List ℚ)) (pre : List Item) : Prop :=
  (Obj.keys acc).Nodup ∧
    ∀ c, Obj.get acc c = if pricesOf c pre = [] then none else some (pricesOf c pre)

/-- The number `m` is the least price of `records`: the price of one of them,
and at most the price of each. -/
def IsLeastPrice (m : ExtNum) (records : List Item) : Prop :=
  ∃ it ∈ records, m = ExtNum.fin it.precio ∧ ∀ it' ∈ records, it.precio ≤ it'.precio

/-- The number `m` is the greatest price of `records`. -/
def IsGreatestPrice (m : ExtNum) (records : List Item) : Prop :=
  ∃ it ∈ records, m = ExtNum.fin it.precio ∧ ∀ it' ∈ records, it'.precio ≤ it.precio

/-- The value `{ count, sumPrice }` that `imperative` holds for a category
when `functional` holds the list `vals` for it. -/
def accOf (vals : List ℚ) : CatAcc := ⟨vals.length, sumReduce vals⟩

/-- A stream of draws that are all `0`, and a `Math` whose functions are
constant, to evaluate `generate` on. -/
def zeroDraws : Nat → UnitDraw := fun _ => ⟨0, le_refl 0, by norm_num⟩

/-- See `zeroDraws`. -/
def constMath : JsMath := ⟨fun _ => 1, fun _ => 0, fun _ => 0, fun _ => 1, 3⟩

/-- The state after a caller has made three objects with categories
`hogar, hogar, libros` and prices `10, 20, 30`, two of them with an `id` of
their own. -/
def scenarioObjects (r₁ r₂ r₃ : ℚ) : Dataset :=
  (Dataset.alloc (Dataset.alloc (Dataset.alloc Dataset.new
    ⟨none, "hogar", 10, r₁⟩).2 ⟨some 7, "hogar", 20, r₂⟩).2 ⟨some 7, "libros", 30, r₃⟩).2

/-- The scenario of the specification: `add` of these three objects. -/
def scenario (r₁ r₂ r₃ : ℚ) : Dataset :=
  Dataset.add (scenarioObjects r₁ r₂ r₃) [0, 1, 2]

/-- A Dataset whose only record has the category `constructor`. -/
def inheritedCase : Dataset :=
  Dataset.add (Dataset.alloc Dataset.new ⟨none, "constructor", 10, 3⟩).2 [0]

/-- The state after a caller has made one object. -/
def oneObject : Dataset := (Dataset.alloc Dataset.new ⟨none, "hogar", 10, 3⟩).2

/-- A Dataset with one record, after `add` of that object. -/
def oneRecord : Dataset := Dataset.add oneObject [0]

/-! ## Lemmas on objects -/

theorem Obj.get_map {β γ : Type} (g : β → γ) (o : Obj β) (k : String) :
    Obj.get (o.map (fun e => (e.1, g e.2))) k = (Obj.get o k).map g := by
  induction o with
  | nil => rfl
  | cons e t ih =>
    obtain ⟨k', v⟩ := e
    by_cases h : k' = k <;> simp [Obj.get, h, ih]

theorem Obj.modify_map {β γ : Type} (g : β → γ) (f : γ → γ) (f' : β → β)
    (hf : ∀ v, f (g v) = g (f' v)) (o : Obj β) (k : String) :
    Obj.modify f (o.map (fun e => (e.1, g e.2))) k
      = (Obj.modify f' o k).map (fun e => (e.1, g e.2)) := by
  induction o with
  | nil => rfl
  | cons e t ih =>
    obtain ⟨k', v⟩ := e
    by_cases h : k' = k <;> simp [Obj.modify, h, ih, hf]

theorem Obj.modify_modify {β : Type} (f g : β → β) (o : Obj β) (k : String) :
    Obj.modify f (Obj.modify g o k) k = Obj.modify (fun v => f (g v)) o k := by
  induction o with
  | nil => rfl
  | cons e t ih =>
    obtain ⟨k', v⟩ := e
    by_cases h : k' = k <;> simp [Obj.modify, h, ih]

theorem Obj.inherited_eq_none {β : Type} (o : Obj β) (k : String)
    (h : k ∉ objectPrototypeKeys) : Obj.inherited o k = none := by
  unfold Obj.inherited
  have h1 : k ≠ "__proto__" := fun e => h (by rw [e]; exact List.mem_cons_self _ _)
  have h2 : k ∉ objectPrototypeFunctions := fun e => h (List.mem_cons_of_mem _ e)
  simp [h1, h2]

theorem sumReduce_append (vals : List ℚ) (p : ℚ) :
    sumReduce (vals ++ [p]) = sumReduce vals + p := by
  simp [sumReduce, List.foldl_append]

/-- One round of the statements on `byCat` keeps it the image of `groups`. -/
theorem Analyzer.tally_map (g : Obj (List ℚ)) (it : Item) :
    Analyzer.tally (g.map (fun e => (e.1, accOf e.2))) it
      = (Analyzer.pushPrice g it).map (fun e => (e.1, accOf e.2)) := by
  have hmod : ∀ o : Obj (List ℚ),
      Obj.modify (fun a => (⟨a.count, a.sumPrice + it.precio⟩ : CatAcc))
        (Obj.modify (fun a => (⟨a.count + 1, a.sumPrice⟩ : CatAcc))
          (o.map (fun e => (e.1, accOf e.2))) it.categoria) it.categoria
      = (Obj.modify (fun vals => vals ++ [it.precio]) o it.categoria).map
          (fun e => (e.1, accOf e.2)) := by
    intro o
    rw [Obj.modify_modify]
    apply Obj.modify_map
    intro v
    simp [accOf, sumReduce_append]
  unfold Analyzer.tally Analyzer.pushPrice
  simp only [Obj.get_map, Option.isNone_map']
  by_cases h : (Obj.get g it.categoria).isNone = true
  · have hins : Obj.insertNew (g.map (fun e => (e.1, accOf e.2))) it.categoria ⟨0, 0⟩
        = (Obj.insertNew g it.categoria []).map (fun e => (e.1, accOf e.2)) := by
      simp [Obj.insertNew, accOf, sumReduce]
    simp only [h, if_true, hins, hmod]
  · simp only [h, Bool.false_eq_true, if_false, hmod]

/-- On records whose categories name no member of `Object.prototype`, the
single pass of `imperative` computes what the separate passes of
`functional` compute, from any starting values, and the grouping raises no
exception. -/
theorem Analyzer.impFold (items : List Item) (hitems : NoInherited items) (sp sr : ℚ)
    (mn mx : ExtNum) (g : Obj (List ℚ)) (pol : Bool) :
    ∃ g', Analyzer.groupReduce g items = Except.ok g' ∧
      items.foldl Analyzer.impStep ⟨sp, sr, mn, mx, g.map (fun e => (e.1, accOf e.2)), pol⟩
        = ⟨items.foldl (fun acc it => acc + it.precio) sp,
            items.foldl (fun acc it => acc + it.rating) sr,
            items.foldl (fun m it => ExtNum.min m (ExtNum.fin it.precio)) mn,
            items.foldl (fun m it => ExtNum.max m (ExtNum.fin it.precio)) mx,
            g'.map (fun e => (e.1, accOf e.2)), pol⟩ := by
  induction items generalizing sp sr mn mx g with
  | nil => exact ⟨g, rfl, rfl⟩
  | cons it t ih =>
    have hit : it.categoria ∉ objectPrototypeKeys := hitems it (List.mem_cons_self _ _)
    have ht : NoInherited t := fun x hx => hitems x (List.mem_cons_of_mem _ hx)
    obtain ⟨g', hg', hfold⟩ := ih ht (sp + it.precio) (sr + it.rating)
      (ExtNum.min mn (ExtNum.fin it.precio)) (ExtNum.max mx (ExtNum.fin it.precio))
      (Analyzer.pushPrice g it)
    refine ⟨g', ?_, ?_⟩
    · simp only [Analyzer.groupReduce, Analyzer.groupStep, Obj.inherited_eq_none _ _ hit]
      exact hg'
    · simp only [List.foldl_cons]
      rw [← hfold]
      congr 1
      simp only [Analyzer.impStep, Obj.inherited_eq_none _ _ hit, Analyzer.tally_map,
        ExtNum.min, ExtNum.max]

theorem mean_eq_div (vals : List ℚ) :
    (accOf vals).sumPrice / ((accOf vals).count : ℚ) = mean vals := by
  unfold mean accOf
  by_cases h : vals.length = 0
  · have : vals = [] := List.length_eq_zero.mp h
    subst this
    simp [sumReduce]
  · simp [h]

/-- On records whose categories name no member of `Object.prototype`,
`functional` returns, and it returns what `imperative` returns. -/
theorem Analyzer.functional_eq_imperative (ds : Dataset) (h : NoInherited ds.records) :
    Analyzer.functional ds = Except.ok (Analyzer.imperative ds) := by
  obtain ⟨g', hg', hfold⟩ :=
    Analyzer.impFold ds.records h 0 0 ExtNum.posInf ExtNum.negInf [] false
  simp only [List.map_nil] at hfold
  unfold Analyzer.functional Analyzer.imperative Dataset.size
  simp only [hg', List.take_length]
  have hrec : ds.items.map ds.heap = ds.records := rfl
  rw [hrec, hfold]
  simp only [Analyzer.inheritedAvg, Bool.false_eq_true, if_false, List.append_nil,
    List.map_map, Dataset.records, List.length_map]
  congr 2
  apply List.map_congr_left
  intro e _
  simp [mean_eq_div]

/-- The extrema `functional` returns, whenever it returns, are the folds of
`Math.min` and `Math.max`. -/
theorem Analyzer.functional_extrema (ds : Dataset) (s : Stats)
    (h : Analyzer.functional ds = Except.ok s) :
    s.minPrice
        = ds.records.foldl (fun m it => ExtNum.min m (ExtNum.fin it.precio)) ExtNum.posInf ∧
      s.maxPrice
        = ds.records.foldl (fun m it => ExtNum.max m (ExtNum.fin it.precio)) ExtNum.negInf := by
  unfold Analyzer.functional at h
  cases hg : Analyzer.groupReduce [] ds.records with
  | error e => simp [hg] at h
  | ok g =>
    simp only [hg, Except.ok.injEq] at h
    subst h
    exact ⟨rfl, rfl⟩

/-- The extrema of `imperative` are the folds of `Math.min` and `Math.max`,
whatever the categories are. -/
theorem Analyzer.impFold_extrema (items : List Item) (s : ImpState) :
    (items.foldl Analyzer.impStep s).minP
        = items.foldl (fun m it => ExtNum.min m (ExtNum.fin it.precio)) s.minP ∧
      (items.foldl Analyzer.impStep s).maxP
        = items.foldl (fun m it => ExtNum.max m (ExtNum.fin it.precio)) s.maxP := by
  induction items generalizing s with
  | nil => exact ⟨rfl, rfl⟩
  | cons it t ih =>
    simp only [List.foldl_cons]
    obtain ⟨h1, h2⟩ := ih (Analyzer.impStep s it)
    rw [h1, h2]
    unfold Analyzer.impStep
    cases Obj.inherited s.byCat it.categoria with
    | none => exact ⟨rfl, rfl⟩
    | some v => cases v <;> exact ⟨rfl, rfl⟩

theorem Analyzer.imperative_extrema (ds : Dataset) :
    (Analyzer.imperative ds).minPrice
        = ds.records.foldl (fun m it => ExtNum.min m (ExtNum.fin it.precio)) ExtNum.posInf ∧
      (Analyzer.imperative ds).maxPrice
        = ds.records.foldl (fun m it => ExtNum.max m (ExtNum.fin it.precio)) ExtNum.negInf := by
  unfold Analyzer.imperative Dataset.size
  simp only [List.take_length]
  exact Analyzer.impFold_extrema ds.records _

/-! ## The grouping by category -/

theorem Analyzer.groupReduce_ok (items : List Item) (h : NoInherited items)
    (acc : Obj (List ℚ)) :
    Analyzer.groupReduce acc items = Except.ok (items.foldl Analyzer.pushPrice acc) := by
  induction items generalizing acc with
  | nil => rfl
  | cons it t ih =>
    have hit : it.categoria ∉ objectPrototypeKeys := h it (List.mem_cons_self _ _)
    have ht : NoInherited t := fun x hx => h x (List.mem_cons_of_mem _ hx)
    simp only [Analyzer.groupReduce, Analyzer.groupStep, Obj.inherited_eq_none _ _ hit,
      List.foldl_cons]
    exact ih ht _

theorem Obj.get_insertNew {β : Type} (o : Obj β) (k c : String) (v : β) :
    Obj.get (Obj.insertNew o k v) c
      = match Obj.get o c with
        | some w => some w
        | none => if k = c then some v else none := by
  induction o with
  | nil => simp [Obj.insertNew, Obj.get]
  | cons e t ih =>
    obtain ⟨k', w⟩ := e
    by_cases h : k' = c
    · simp [Obj.insertNew, Obj.get, h]
    · simpa [Obj.insertNew, Obj.get, h] using ih

theorem Obj.get_modify {β : Type} (f : β → β) (o : Obj β) (k c : String) :
    Obj.get (Obj.modify f o k) c = if k = c then (Obj.get o c).map f else Obj.get o c := by
  induction o with
  | nil => simp [Obj.modify, Obj.get]
  | cons e t ih =>
    obtain ⟨k', w⟩ := e
    by_cases h : k' = k
    · by_cases hc : k = c
      · subst hc
        simp [Obj.modify, Obj.get, h]
      · have hc' : ¬ k' = c := by rw [h]; exact hc
        simp [Obj.modify, Obj.get, h, hc]
    · by_cases hc : k' = c
      · subst hc
        have hkc : ¬ k = k' := fun e => h e.symm
        simp [Obj.modify, Obj.get, h, hkc]
      · simp [Obj.modify, Obj.get, h, hc, ih]

theorem Obj.keys_modify {β : Type} (f : β → β) (o : Obj β) (k : String) :
    Obj.keys (Obj.modify f o k) = Obj.keys o := by
  induction o with
  | nil => rfl
  | cons e t ih =>
    obtain ⟨k', w⟩ := e
    unfold Obj.keys at ih ⊢
    by_cases h : k' = k <;> simp [Obj.modify, h, ih]

theorem Obj.mem_keys_iff {β : Type} (o : Obj β) (c : String) :
    c ∈ Obj.keys o ↔ (Obj.get o c).isSome = true := by
  induction o with
  | nil => simp [Obj.keys, Obj.get]
  | cons e t ih =>
    obtain ⟨k', w⟩ := e
    unfold Obj.keys at ih ⊢
    by_cases h : k' = c
    · simp [Obj.get, h]
    · have h' : ¬ c = k' := fun e => h e.symm
      simp [Obj.get, h, h', ih]

theorem pricesOf_append (c : String) (pre : List Item) (it : Item) :
    pricesOf c (pre ++ [it])
      = pricesOf c pre ++ (if it.categoria = c then [it.precio] else []) := by
  unfold pricesOf
  by_cases h : it.categoria = c <;> simp [List.filter_append, List.filter_cons, h]

theorem Analyzer.pushPrice_inv (acc : Obj (List ℚ)) (pre : List Item) (it : Item)
    (h : GroupsInv acc pre) : GroupsInv (Analyzer.pushPrice acc it) (pre ++ [it]) := by
  obtain ⟨hnd, hget⟩ := h
  unfold Analyzer.pushPrice
  by_cases hk : (Obj.get acc it.categoria).isNone = true
  · have hnot : it.categoria ∉ Obj.keys acc := by
      rw [Obj.mem_keys_iff]
      cases hg : Obj.get acc it.categoria <;> simp_all
    have hempty : pricesOf it.categoria pre = [] := by
      have := hget it.categoria
      by_contra hne
      rw [if_neg hne] at this
      rw [this] at hk
      simp at hk
    constructor
    · simp only [hk, if_true, Obj.keys_modify]
      unfold Obj.keys Obj.insertNew
      rw [List.map_append]
      apply List.Nodup.append hnd (by simp)
      intro a ha ha'
      simp at ha'
      exact hnot (ha' ▸ ha)
    · intro c
      simp only [hk, if_true, Obj.get_modify, Obj.get_insertNew, pricesOf_append, hget c]
      by_cases hc : it.categoria = c
      · subst hc
        simp [hempty]
      · by_cases hp : pricesOf c pre = [] <;> simp [hc, hp]
  · have hk' : (Obj.get acc it.categoria).isNone = false := by
      cases hg : Obj.get acc it.categoria <;> simp_all
    have hne : pricesOf it.categoria pre ≠ [] := by
      intro he
      have := hget it.categoria
      rw [if_pos he] at this
      rw [this] at hk'
      simp at hk'
    constructor
    · simpa only [hk', Bool.false_eq_true, if_false, Obj.keys_modify] using hnd
    · intro c
      simp only [hk', Bool.false_eq_true, if_false, Obj.get_modify, pricesOf_append, hget c]
      by_cases hc : it.categoria = c
      · subst hc
        simp [hne]
      · by_cases hp : pricesOf c pre = [] <;> simp [hc, hp]

theorem Analyzer.groups_inv (items pre : List Item) (acc : Obj (List ℚ))
    (h : GroupsInv acc pre) : GroupsInv (items.foldl Analyzer.pushPrice acc) (pre ++ items) := by
  induction items generalizing pre acc with
  | nil => simpa using h
  | cons it t ih =>
    have := ih (pre ++ [it]) (Analyzer.pushPrice acc it) (Analyzer.pushPrice_inv acc pre it h)
    simpa [List.append_assoc] using this

theorem Analyzer.groups_spec (items : List Item) :
    GroupsInv (items.foldl Analyzer.pushPrice []) items := by
  have h0 : GroupsInv [] [] := by
    constructor
    · simp [Obj.keys]
    · intro c
      simp [Obj.get, pricesOf]
  simpa using Analyzer.groups_inv items [] [] h0

theorem sumReduce_eq_sum (vals : List ℚ) : sumReduce vals = vals.sum := by
  induction vals using List.reverseRecOn with
  | nil => rfl
  | append_singleton t a ih => rw [sumReduce_append, ih]; simp

theorem pricesOf_eq_nil_iff (c : String) (items : List Item) :
    pricesOf c items = [] ↔ ¬ ∃ it ∈ items, it.categoria = c := by
  unfold pricesOf
  simp [List.filter_eq_nil_iff]

/-- On records whose categories name no member of `Object.prototype`,
`functional` returns the averages of the groups. -/
theorem Analyzer.functional_avg (ds : Dataset) (h : NoInherited ds.records) :
    ∃ s, Analyzer.functional ds = Except.ok s ∧
      s.avgPriceByCat
        = (ds.records.foldl Analyzer.pushPrice []).map (fun e => (e.1, JsNum.num (mean e.2))) := by
  unfold Analyzer.functional
  simp only [Analyzer.groupReduce_ok ds.records h]
  exact ⟨_, rfl, rfl⟩

/-! ## Minimum and maximum -/

theorem Analyzer.foldl_min_fin (items : List Item) (q : ℚ) :
    ∃ q', items.foldl (fun m it => ExtNum.min m (ExtNum.fin it.precio)) (ExtNum.fin q)
        = ExtNum.fin q' ∧ q' ≤ q ∧ (∀ it ∈ items, q' ≤ it.precio) ∧
        (q' = q ∨ ∃ it ∈ items, q' = it.precio) := by
  induction items generalizing q with
  | nil => exact ⟨q, rfl, le_refl q, by simp, Or.inl rfl⟩
  | cons it t ih =>
    by_cases hlt : it.precio < q
    · obtain ⟨q', hq, hle, hall, hor⟩ := ih it.precio
      refine ⟨q', ?_, le_trans hle (le_of_lt hlt), ?_, ?_⟩
      · simpa [ExtNum.min, ExtNum.lt, hlt] using hq
      · intro x hx
        rcases List.mem_cons.mp hx with rfl | hx
        · exact hle
        · exact hall x hx
      · rcases hor with h | ⟨x, hx, h⟩
        · exact Or.inr ⟨it, List.mem_cons_self _ _, h⟩
        · exact Or.inr ⟨x, List.mem_cons_of_mem _ hx, h⟩
    · obtain ⟨q', hq, hle, hall, hor⟩ := ih q
      refine ⟨q', ?_, hle, ?_, ?_⟩
      · simpa [ExtNum.min, ExtNum.lt, hlt] using hq
      · intro x hx
        rcases List.mem_cons.mp hx with rfl | hx
        · exact le_trans hle (not_lt.mp hlt)
        · exact hall x hx
      · rcases hor with h | ⟨x, hx, h⟩
        · exact Or.inl h
        · exact Or.inr ⟨x, List.mem_cons_of_mem _ hx, h⟩

theorem Analyzer.foldl_max_fin (items : List Item) (q : ℚ) :
    ∃ q', items.foldl (fun m it => ExtNum.max m (ExtNum.fin it.precio)) (ExtNum.fin q)
        = ExtNum.fin q' ∧ q ≤ q' ∧ (∀ it ∈ items, it.precio ≤ q') ∧
        (q' = q ∨ ∃ it ∈ items, q' = it.precio) := by
  induction items generalizing q with
  | nil => exact ⟨q, rfl, le_refl q, by simp, Or.inl rfl⟩
  | cons it t ih =>
    by_cases hlt : q < it.precio
    · obtain ⟨q', hq, hle, hall, hor⟩ := ih it.precio
      refine ⟨q', ?_, le_trans (le_of_lt hlt) hle, ?_, ?_⟩
      · simpa [ExtNum.max, ExtNum.lt, hlt] using hq
      · intro x hx
        rcases List.mem_cons.mp hx with rfl | hx
        · exact hle
        · exact hall x hx
      · rcases hor with h | ⟨x, hx, h⟩
        · exact Or.inr ⟨it, List.mem_cons_self _ _, h⟩
        · exact Or.inr ⟨x, List.mem_cons_of_mem _ hx, h⟩
    · obtain ⟨q', hq, hle, hall, hor⟩ := ih q
      refine ⟨q', ?_, hle, ?_, ?_⟩
      · simpa [ExtNum.max, ExtNum.lt, hlt] using hq
      · intro x hx
        rcases List.mem_cons.mp hx with rfl | hx
        · exact le_trans (not_lt.mp hlt) hle
        · exact hall x hx
      · rcases hor with h | ⟨x, hx, h⟩
        · exact Or.inl h
        · exact Or.inr ⟨x, List.mem_cons_of_mem _ hx, h⟩

theorem Analyzer.fold_min_least (records : List Item) (h : records ≠ []) :
    IsLeastPrice
      (records.foldl (fun m it => ExtNum.min m (ExtNum.fin it.precio)) ExtNum.posInf)
      records := by
  cases records with
  | nil => exact absurd rfl h
  | cons it t =>
    obtain ⟨q', hq, hle, hall, hor⟩ := Analyzer.foldl_min_fin t it.precio
    have hval : (it :: t).foldl (fun m it => ExtNum.min m (ExtNum.fin it.precio)) ExtNum.posInf
        = ExtNum.fin q' := by
      simpa [ExtNum.min, ExtNum.lt] using hq
    rcases hor with h1 | ⟨x, hx, h1⟩
    · refine ⟨it, List.mem_cons_self _ _, by rw [hval, h1], ?_⟩
      intro x hx
      rcases List.mem_cons.mp hx with rfl | hx
      · exact le_refl _
      · exact h1 ▸ hall x hx
    · refine ⟨x, List.mem_cons_of_mem _ hx, by rw [hval, h1], ?_⟩
      intro y hy
      rcases List.mem_cons.mp hy with rfl | hy
      · exact h1 ▸ hle
      · exact h1 ▸ hall y hy

theorem Analyzer.fold_max_greatest (records : List Item) (h : records ≠ []) :
    IsGreatestPrice
      (records.foldl (fun m it => ExtNum.max m (ExtNum.fin it.precio)) ExtNum.negInf)
      records := by
  cases records with
  | nil => exact absurd rfl h
  | cons it t =>
    obtain ⟨q', hq, hle, hall, hor⟩ := Analyzer.foldl_max_fin t it.precio
    have hval : (it :: t).foldl (fun m it => ExtNum.max m (ExtNum.fin it.precio)) ExtNum.negInf
        = ExtNum.fin q' := by
      simpa [ExtNum.max, ExtNum.lt] using hq
    rcases hor with h1 | ⟨x, hx, h1⟩
    · refine ⟨it, List.mem_cons_self _ _, by rw [hval, h1], ?_⟩
      intro x hx
      rcases List.mem_cons.mp hx with rfl | hx
      · exact le_refl _
      · exact h1 ▸ hall x hx
    · refine ⟨x, List.mem_cons_of_mem _ hx, by rw [hval, h1], ?_⟩
      intro y hy
      rcases List.mem_cons.mp hy with rfl | hy
      · exact h1 ▸ hle
      · exact h1 ▸ hall y hy

/-! ## The `Dataset` operations in closed form -/

theorem Dataset.generate_loop (M : JsMath) (rnd : Nat → UnitDraw) (m b : Nat)
    (heap : Nat → Item) (n : Nat) :
    (List.range n).foldl (Dataset.generateStep M rnd) ⟨[], m, heap, b⟩
      = ⟨List.range' b n, m + n,
          fun a => if b ≤ a ∧ a < b + n then mkItem M rnd (a - b) (m + (a - b)) else heap a,
          b + n⟩ := by
  induction n with
  | zero =>
    simp only [List.range_zero, List.foldl_nil, List.range'_zero, Nat.add_zero]
    congr 1
    funext a
    have : ¬ (b ≤ a ∧ a < b) := by omega
    simp [this]
  | succ n ih =>
    rw [List.range_succ, List.foldl_append, ih]
    simp only [List.foldl_cons, List.foldl_nil, Dataset.generateStep]
    congr 1
    · rw [List.range'_concat]
      simp
    · funext a
      by_cases ha : a = b + n
      · subst ha
        simp
      · rw [Function.update_noteq ha]
        by_cases h1 : b ≤ a ∧ a < b + n
        · have h2 : b ≤ a ∧ a < b + (n + 1) := by omega
          simp [h1, h2]
        · have h2 : ¬ (b ≤ a ∧ a < b + (n + 1)) := by omega
          simp [h1, h2]

theorem Dataset.generate_eq (M : JsMath) (rnd : Nat → UnitDraw) (ds : Dataset) (n : Nat) :
    Dataset.generate M rnd ds n
      = (List.range' ds.brk n,
          ⟨fun a => if ds.brk ≤ a ∧ a < ds.brk + n
              then mkItem M rnd (a - ds.brk) (ds.nextId + (a - ds.brk)) else ds.heap a,
            ds.brk + n, ds.items ++ List.range' ds.brk n, ds.nextId + n⟩) := by
  unfold Dataset.generate
  rw [Dataset.generate_loop]

theorem Dataset.generated_eq (M : JsMath) (rnd : Nat → UnitDraw) (ds : Dataset) (n : Nat) :
    Dataset.generated M rnd ds n
      = (List.range n).map (fun i => mkItem M rnd i (ds.nextId + i)) := by
  unfold Dataset.generated
  rw [Dataset.generate_eq, List.range'_eq_map_range]
  simp only [List.map_map]
  apply List.map_congr_left
  intro i hi
  have hi' : i < n := List.mem_range.mp hi
  have : ds.brk ≤ ds.brk + i ∧ ds.brk + i < ds.brk + n := by omega
  simp [this]

theorem Dataset.generated_ids (M : JsMath) (rnd : Nat → UnitDraw) (ds : Dataset) (n : Nat) :
    (Dataset.generated M rnd ds n).map Item.id
      = (List.range n).map (fun (i : Nat) => some ((ds.nextId : Int) + (i : Int))) := by
  rw [Dataset.generated_eq]
  simp [List.map_map, Function.comp_def, mkItem]

/-- The objects a Dataset stores are not touched by `generate`. -/
theorem Dataset.generate_records (M : JsMath) (rnd : Nat → UnitDraw) (ds : Dataset) (n : Nat)
    (h : ds.Allocated) :
    (Dataset.generate M rnd ds n).2.records = ds.records ++ Dataset.generated M rnd ds n := by
  unfold Dataset.generated Dataset.records
  rw [Dataset.generate_eq]
  simp only [List.map_append]
  congr 1
  apply List.map_congr_left
  intro a ha
  have := h a ha
  have hn : ¬ (ds.brk ≤ a ∧ a < ds.brk + n) := by omega
  simp [hn]

theorem Dataset.add_fields (ds : Dataset) (args : List Nat) :
    (Dataset.add ds args).items = ds.items ++ args ∧
      (Dataset.add ds args).nextId = ds.nextId + args.length ∧
      (Dataset.add ds args).brk = ds.brk := by
  unfold Dataset.add
  induction args generalizing ds with
  | nil => simp
  | cons a t ih =>
    obtain ⟨h1, h2, h3⟩ := ih (Dataset.addStep ds a)
    rw [List.foldl_cons, h1, h2, h3]
    simp [Dataset.addStep]
    omega

/-- The method `add` writes the field `id` only, and only on the objects it is
handed. -/
theorem Dataset.add_heap (ds : Dataset) (args : List Nat) (a : Nat) :
    ((Dataset.add ds args).heap a).categoria = (ds.heap a).categoria ∧
      ((Dataset.add ds args).heap a).precio = (ds.heap a).precio ∧
      ((Dataset.add ds args).heap a).rating = (ds.heap a).rating ∧
      (a ∉ args → (Dataset.add ds args).heap a = ds.heap a) := by
  unfold Dataset.add
  induction args generalizing ds with
  | nil => simp
  | cons b t ih =>
    obtain ⟨h1, h2, h3, h4⟩ := ih (Dataset.addStep ds b)
    rw [List.foldl_cons, h1, h2, h3]
    have hstep : ∀ x, ((Dataset.addStep ds b).heap x).categoria = (ds.heap x).categoria ∧
        ((Dataset.addStep ds b).heap x).precio = (ds.heap x).precio ∧
        ((Dataset.addStep ds b).heap x).rating = (ds.heap x).rating := by
      intro x
      by_cases hx : x = b
      · subst hx
        simp [Dataset.addStep]
      · simp [Dataset.addStep, Function.update_noteq hx]
    refine ⟨(hstep a).1, (hstep a).2.1, (hstep a).2.2, ?_⟩
    intro ha
    have hab : a ≠ b := fun e => ha (e ▸ List.mem_cons_self _ _)
    have hat : a ∉ t := fun e => ha (List.mem_cons_of_mem _ e)
    rw [h4 hat]
    simp [Dataset.addStep, Function.update_noteq hab]

theorem addedRecords_congr (heap heap' : Nat → Item) (m : Nat) (args : List Nat)
    (h : ∀ a ∈ args, heap' a = heap a) : addedRecords heap' m args = addedRecords heap m args := by
  induction args generalizing m with
  | nil => rfl
  | cons a t ih =>
    simp only [addedRecords]
    rw [h a (List.mem_cons_self _ _), ih (m + 1) (fun x hx => h x (List.mem_cons_of_mem _ hx))]

/-- The records of the Dataset after `add` of objects that are pairwise
distinct and not stored yet. -/
theorem Dataset.add_records (ds : Dataset) (args : List Nat) (h : FreshArgs ds args) :
    (Dataset.add ds args).records = ds.records ++ addedRecords ds.heap ds.nextId args := by
  induction args generalizing ds with
  | nil => simp [Dataset.add, addedRecords]
  | cons a t ih =>
    obtain ⟨hnd, hnot⟩ := h
    have hat : a ∉ t := (List.nodup_cons.mp hnd).1
    have ha : a ∉ ds.items := hnot a (List.mem_cons_self _ _)
    have hfresh : FreshArgs (Dataset.addStep ds a) t := by
      refine ⟨(List.nodup_cons.mp hnd).2, ?_⟩
      intro b hb hmem
      have hb' : b ∉ ds.items := hnot b (List.mem_cons_of_mem _ hb)
      simp only [Dataset.addStep, List.mem_append, List.mem_singleton] at hmem
      rcases hmem with h1 | h1
      · exact hb' h1
      · exact hat (h1 ▸ hb)
    have hstep : (Dataset.addStep ds a).records
        = ds.records ++ [⟨some (ds.nextId : Int), (ds.heap a).categoria, (ds.heap a).precio,
            (ds.heap a).rating⟩] := by
      simp only [Dataset.records, Dataset.addStep, List.map_append, List.map_cons, List.map_nil,
        Function.update_same]
      congr 1
      apply List.map_congr_left
      intro x hx
      have hxa : x ≠ a := fun e => ha (e ▸ hx)
      rw [Function.update_noteq hxa]
    have hcongr : addedRecords (Dataset.addStep ds a).heap (ds.nextId + 1) t
        = addedRecords ds.heap (ds.nextId + 1) t := by
      apply addedRecords_congr
      intro x hx
      have hxa : x ≠ a := fun e => hat (e ▸ hx)
      simp [Dataset.addStep, Function.update_noteq hxa]
    have := ih (Dataset.addStep ds a) hfresh
    have hnext : (Dataset.addStep ds a).nextId = ds.nextId + 1 := rfl
    rw [hnext, hcongr, hstep] at this
    show (Dataset.add (Dataset.addStep ds a) t).records = _
    rw [this]
    simp [addedRecords]

theorem addedRecords_length (heap : Nat → Item) (m : Nat) (args : List Nat) :
    (addedRecords heap m args).length = args.length := by
  induction args generalizing m with
  | nil => rfl
  | cons a t ih => simp [addedRecords, ih]

theorem addedRecords_ids (heap : Nat → Item) (m : Nat) (args : List Nat) :
    (addedRecords heap m args).map Item.id
      = (List.range args.length).map (fun (i : Nat) => some ((m : Int) + (i : Int))) := by
  induction args generalizing m with
  | nil => rfl
  | cons a t ih =>
    simp only [addedRecords, List.map_cons, List.length_cons, List.range_succ_eq_map, ih,
      List.map_map]
    refine congrArg₂ List.cons (by simp) ?_
    · apply List.map_congr_left
      intro i _
      simp only [Function.comp_apply, Option.some.injEq]
      push_cast
      ring

theorem addedRecords_getElem? (heap : Nat → Item) (m : Nat) (args : List Nat) (i : Nat) :
    (addedRecords heap m args)[i]?
      = (args[i]?).map (fun a =>
          (⟨some ((m : Int) + (i : Int)), (heap a).categoria, (heap a).precio,
            (heap a).rating⟩ : Item)) := by
  induction args generalizing m i with
  | nil => simp [addedRecords]
  | cons a t ih =>
    cases i with
    | zero => simp [addedRecords]
    | succ j =>
      simp only [addedRecords, List.getElem?_cons_succ, ih]
      congr 1
      funext r
      congr 2
      push_cast
      ring

/-! ## The ids -/

theorem idLt_ne (a b : Option Int) (h : idLt a b) : a ≠ b := by
  intro e
  subst e
  cases a with
  | none => exact h
  | some x => exact lt_irrefl x h

theorem idsInv_extend (recs more : List Item) (m k : Nat)
    (hmore : more.map Item.id = (List.range k).map (fun (i : Nat) => some ((m : Int) + (i : Int))))
    (h1 : (recs.map Item.id).Pairwise idLt) (h2 : ∀ it ∈ recs, idLt it.id (some (m : Int))) :
    ((recs ++ more).map Item.id).Nodup ∧ ((recs ++ more).map Item.id).Pairwise idLt ∧
      ∀ it ∈ recs ++ more, idLt it.id (some (((m + k : Nat) : Nat) : Int)) := by
  have hmem : ∀ it ∈ more, ∃ i : Nat, i < k ∧ it.id = some ((m : Int) + (i : Int)) := by
    intro it hit
    have : it.id ∈ more.map Item.id := List.mem_map_of_mem _ hit
    rw [hmore] at this
    obtain ⟨i, hi, he⟩ := List.mem_map.mp this
    exact ⟨i, List.mem_range.mp hi, he.symm⟩
  have hold : ∀ it ∈ recs, ∃ x : Int, it.id = some x ∧ x < (m : Int) := by
    intro it hit
    have := h2 it hit
    cases hid : it.id with
    | none => rw [hid] at this; exact absurd this (by simp [idLt])
    | some x => rw [hid] at this; exact ⟨x, rfl, this⟩
  have hpw : ((recs ++ more).map Item.id).Pairwise idLt := by
    rw [List.map_append, List.pairwise_append]
    refine ⟨h1, ?_, ?_⟩
    · rw [hmore, List.pairwise_map]
      refine (List.pairwise_lt_range k).imp ?_
      intro i j hij
      show (m : Int) + (i : Int) < (m : Int) + (j : Int)
      omega
    · intro a ha b hb
      obtain ⟨it, hit, rfl⟩ := List.mem_map.mp ha
      obtain ⟨it', hit', rfl⟩ := List.mem_map.mp hb
      obtain ⟨x, hx, hlt⟩ := hold it hit
      obtain ⟨i, _, hi⟩ := hmem it' hit'
      rw [hx, hi]
      show x < (m : Int) + (i : Int)
      omega
  refine ⟨hpw.imp (fun {a b} hab => idLt_ne a b hab), hpw, ?_⟩
  intro it hit
  rcases List.mem_append.mp hit with h | h
  · obtain ⟨x, hx, hlt⟩ := hold it h
    rw [hx]
    show x < ((m + k : Nat) : Int)
    push_cast
    omega
  · obtain ⟨i, hik, hi⟩ := hmem it h
    rw [hi]
    show (m : Int) + (i : Int) < ((m + k : Nat) : Int)
    push_cast
    omega

theorem maxId_le (l : List Item) (b : Int) (hb : 0 ≤ b) (h : ∀ it ∈ l, it.id.getD 0 ≤ b) :
    maxId l ≤ b := by
  induction l with
  | nil => exact hb
  | cons x t ih =>
    have h1 := h x (List.mem_cons_self _ _)
    have h2 := ih (fun it hit => h it (List.mem_cons_of_mem _ hit))
    show max (x.id.getD 0) (maxId t) ≤ b
    exact max_le h1 h2

theorem le_maxId (l : List Item) (it : Item) (h : it ∈ l) : it.id.getD 0 ≤ maxId l := by
  induction l with
  | nil => exact absurd h (List.not_mem_nil _)
  | cons x t ih =>
    show it.id.getD 0 ≤ max (x.id.getD 0) (maxId t)
    rcases List.mem_cons.mp h with rfl | h
    · exact le_max_left _ _
    · exact le_trans (ih h) (le_max_right _ _)

/-- Under `CounterInv` the counter is one more than the greatest stored id. -/
theorem CounterInv.maxId_succ (ds : Dataset) (h : CounterInv ds) :
    maxId ds.records + 1 = (ds.nextId : Int) := by
  obtain ⟨_, hall, hpos, hempty, hlast⟩ := h
  by_cases he : ds.items = []
  · have : ds.records = [] := by simp [Dataset.records, he]
    rw [this, hempty he]
    rfl
  · obtain ⟨it, hit, hid⟩ := hlast he
    have h1 : maxId ds.records ≤ (ds.nextId : Int) - 1 := by
      apply maxId_le
      · omega
      · intro x hx
        obtain ⟨z, hz, hlt⟩ := hall x hx
        rw [hz]
        show z ≤ (ds.nextId : Int) - 1
        omega
    have h2 : (ds.nextId : Int) - 1 ≤ maxId ds.records := by
      have := le_maxId ds.records it hit
      rw [hid] at this
      exact this
    omega

theorem CounterInv.addStep (ds : Dataset) (a : Nat) (ha : a < ds.brk) (h : CounterInv ds) :
    CounterInv (Dataset.addStep ds a) := by
  obtain ⟨halloc, hall, hpos, _, _⟩ := h
  refine ⟨?_, ?_, ?_, ?_, ?_⟩
  · intro x hx
    simp only [Dataset.addStep, List.mem_append, List.mem_singleton] at hx
    rcases hx with hx | hx
    · exact halloc x hx
    · exact hx ▸ ha
  · intro it hit
    simp only [Dataset.records, Dataset.addStep, List.mem_map, List.mem_append,
      List.mem_singleton] at hit
    obtain ⟨x, hx, rfl⟩ := hit
    have hnext : ((Dataset.addStep ds a).nextId : Int) = (ds.nextId : Int) + 1 := by
      simp [Dataset.addStep]
    rw [hnext]
    by_cases hxa : x = a
    · subst hxa
      refine ⟨(ds.nextId : Int), by simp, ?_⟩
      omega
    · rw [Function.update_noteq hxa]
      rcases hx with hx | hx
      · obtain ⟨z, hz, hlt⟩ := hall (ds.heap x) (List.mem_map_of_mem _ hx)
        refine ⟨z, hz, ?_⟩
        omega
      · exact absurd hx hxa
  · show 1 ≤ ds.nextId + 1
    omega
  · intro he
    simp [Dataset.addStep] at he
  · intro _
    refine ⟨(Dataset.addStep ds a).heap a, ?_, ?_⟩
    · simp [Dataset.records, Dataset.addStep]
    · simp [Dataset.addStep]

theorem CounterInv.add (ds : Dataset) (args : List Nat) (hargs : ∀ a ∈ args, a < ds.brk)
    (h : CounterInv ds) : CounterInv (Dataset.add ds args) := by
  unfold Dataset.add
  induction args generalizing ds with
  | nil => exact h
  | cons a t ih =>
    rw [List.foldl_cons]
    apply ih
    · intro x hx
      exact hargs x (List.mem_cons_of_mem _ hx)
    · exact CounterInv.addStep ds a (hargs a (List.mem_cons_self _ _)) h

theorem CounterInv.generate (M : JsMath) (rnd : Nat → UnitDraw) (ds : Dataset) (n : Nat)
    (h : CounterInv ds) : CounterInv (Dataset.generate M rnd ds n).2 := by
  obtain ⟨halloc, hall, hpos, hempty, hlast⟩ := h
  have hrec := Dataset.generate_records M rnd ds n halloc
  have hgen := Dataset.generated_eq M rnd ds n
  have hitems : (Dataset.generate M rnd ds n).2.items = ds.items ++ List.range' ds.brk n := by
    rw [Dataset.generate_eq]
  have hnext : (Dataset.generate M rnd ds n).2.nextId = ds.nextId + n := by
    rw [Dataset.generate_eq]
  have hbrk : (Dataset.generate M rnd ds n).2.brk = ds.brk + n := by
    rw [Dataset.generate_eq]
  refine ⟨?_, ?_, ?_, ?_, ?_⟩
  · intro x hx
    rw [hitems] at hx
    rw [hbrk]
    rcases List.mem_append.mp hx with hx | hx
    · have := halloc x hx
      omega
    · rw [List.mem_range'_1] at hx
      omega
  · intro it hit
    rw [hrec] at hit
    rw [hnext]
    rcases List.mem_append.mp hit with hit | hit
    · obtain ⟨z, hz, hlt⟩ := hall it hit
      refine ⟨z, hz, ?_⟩
      push_cast
      omega
    · rw [hgen] at hit
      obtain ⟨i, hi, rfl⟩ := List.mem_map.mp hit
      have hi' := List.mem_range.mp hi
      refine ⟨((ds.nextId + i : Nat) : Int), rfl, ?_⟩
      push_cast
      omega
  · rw [hnext]
    omega
  · intro he
    rw [hitems] at he
    obtain ⟨h1, h2⟩ := List.append_eq_nil.mp he
    have hn : n = 0 := by
      have := congrArg List.length h2
      simpa using this
    rw [hnext, hn, hempty h1]
  · intro _
    rw [hrec, hnext]
    by_cases hn : n = 0
    · subst hn
      have hne : ds.items ≠ [] := by
        intro he
        have : (Dataset.generate M rnd ds 0).2.items = [] := by rw [hitems, he]; rfl
        contradiction
      obtain ⟨it, hit, hid⟩ := hlast hne
      exact ⟨it, List.mem_append_left _ hit, by simpa using hid⟩
    · refine ⟨mkItem M rnd (n - 1) (ds.nextId + (n - 1)), ?_, ?_⟩
      · apply List.mem_append_right
        rw [hgen]
        exact List.mem_map.mpr ⟨n - 1, List.mem_range.mpr (by omega), rfl⟩
      · show some (((ds.nextId + (n - 1) : Nat) : Nat) : Int) = _
        congr 1
        push_cast
        omega

/-- Every reachable state satisfies `CounterInv`. -/
theorem Reachable.counterInv (ds : Dataset) (h : Reachable ds) : CounterInv ds := by
  induction h with
  | new =>
    refine ⟨?_, ?_, ?_, ?_, ?_⟩ <;> simp [Dataset.Allocated, Dataset.new, Dataset.records]
  | alloc ds obj _ ih =>
    obtain ⟨halloc, hall, hpos, hempty, hlast⟩ := ih
    have hrec : (ds.alloc obj).2.records = ds.records := by
      simp only [Dataset.records, Dataset.alloc]
      apply List.map_congr_left
      intro x hx
      have := halloc x hx
      have hne : x ≠ ds.brk := by omega
      rw [Function.update_noteq hne]
    refine ⟨?_, ?_, hpos, hempty, ?_⟩
    · intro x hx
      have := halloc x hx
      show x < ds.brk + 1
      omega
    · rw [hrec]
      exact hall
    · rw [hrec]
      exact hlast
  | generate M rnd ds n _ ih => exact CounterInv.generate M rnd ds n ih
  | add ds args _ hargs ih => exact CounterInv.add ds args hargs ih
  | clear ds _ ih =>
    refine ⟨?_, ?_, ?_, ?_, ?_⟩ <;> simp [Dataset.Allocated, Dataset.clear, Dataset.records]

/-! ## The scenario of the specification and other cases -/

/-- The result of `imperative` as a function of the records read. -/
theorem Analyzer.imperative_records (ds : Dataset) :
    Analyzer.imperative ds
      = ⟨ds.records.length,
          if ds.records.length ≠ 0 then
            (ds.records.foldl Analyzer.impStep
              ⟨0, 0, ExtNum.posInf, ExtNum.negInf, [], false⟩).sumPrice / (ds.records.length : ℚ)
          else 0,
          if ds.records.length ≠ 0 then
            (ds.records.foldl Analyzer.impStep
              ⟨0, 0, ExtNum.posInf, ExtNum.negInf, [], false⟩).sumRating / (ds.records.length : ℚ)
          else 0,
          (ds.records.foldl Analyzer.impStep
            ⟨0, 0, ExtNum.posInf, ExtNum.negInf, [], false⟩).minP,
          (ds.records.foldl Analyzer.impStep
            ⟨0, 0, ExtNum.posInf, ExtNum.negInf, [], false⟩).maxP,
          (ds.records.foldl Analyzer.impStep
              ⟨0, 0, ExtNum.posInf, ExtNum.negInf, [], false⟩).byCat.map
              (fun e => (e.1, JsNum.num (e.2.sumPrice / (e.2.count : ℚ))))
            ++ Analyzer.inheritedAvg (ds.records.foldl Analyzer.impStep
              ⟨0, 0, ExtNum.posInf, ExtNum.negInf, [], false⟩)⟩ := by
  unfold Analyzer.imperative Dataset.size Dataset.records
  simp only [List.take_length, List.length_map]

theorem scenario_records (r₁ r₂ r₃ : ℚ) :
    (scenario r₁ r₂ r₃).records
      = [⟨some 1, "hogar", 10, r₁⟩, ⟨some 2, "hogar", 20, r₂⟩, ⟨some 3, "libros", 30, r₃⟩] := by
  simp [scenario, scenarioObjects, Dataset.records, Dataset.add, Dataset.addStep, Dataset.alloc,
    Dataset.new, Function.update]

theorem scenario_noInherited (r₁ r₂ r₃ : ℚ) : NoInherited (scenario r₁ r₂ r₃).records := by
  rw [scenario_records]
  intro it hit
  simp only [List.mem_cons, List.mem_singleton, List.not_mem_nil, or_false] at hit
  rcases hit with rfl | rfl | rfl <;> simp [objectPrototypeKeys, objectPrototypeFunctions]

theorem scenario_imperative (r₁ r₂ r₃ : ℚ) :
    Analyzer.imperative (scenario r₁ r₂ r₃)
      = ⟨3, 20, (r₁ + r₂ + r₃) / 3, ExtNum.fin 10, ExtNum.fin 30,
          [("hogar", JsNum.num 15), ("libros", JsNum.num 30)]⟩ := by
  have hrec := scenario_records r₁ r₂ r₃
  rw [Analyzer.imperative_records, hrec]
  simp [Analyzer.impStep, Analyzer.tally, Analyzer.inheritedAvg, Obj.inherited, Obj.get,
    Obj.insertNew, Obj.modify, objectPrototypeFunctions, ExtNum.lt]
  norm_num

theorem inheritedCase_records :
    inheritedCase.records = [⟨some 1, "constructor", 10, 3⟩] := by
  simp [inheritedCase, Dataset.records, Dataset.add, Dataset.addStep, Dataset.alloc,
    Dataset.new, Function.update]

theorem inheritedCase_functional :
    Analyzer.functional inheritedCase = Except.error JsError.typeError := by
  unfold Analyzer.functional
  rw [inheritedCase_records]
  simp [Analyzer.groupReduce, Analyzer.groupStep, Obj.inherited, Obj.get,
    objectPrototypeFunctions]

theorem inheritedCase_imperative :
    Analyzer.imperative inheritedCase
      = ⟨1, 10, 3, ExtNum.fin 10, ExtNum.fin 10, []⟩ := by
  have hrec := inheritedCase_records
  rw [Analyzer.imperative_records, hrec]
  simp [Analyzer.impStep, Analyzer.inheritedAvg, Obj.inherited, Obj.get,
    objectPrototypeFunctions, ExtNum.lt]

/-! ## Categories that name a member of `Object.prototype` -/

theorem Obj.keys_insertNew {β : Type} (o : Obj β) (k : String) (v : β) :
    Obj.keys (Obj.insertNew o k v) = Obj.keys o ++ [k] := by
  simp [Obj.keys, Obj.insertNew]

/-- When the lookup finds no truthy inherited value, the key is an own property
or names no member of `Object.prototype`. -/
theorem Obj.inherited_none {β : Type} (o : Obj β) (k : String) (h : Obj.inherited o k = none) :
    k ∈ Obj.keys o ∨ k ∉ objectPrototypeKeys := by
  unfold Obj.inherited at h
  by_cases h1 : (Obj.get o k).isSome = true
  · exact Or.inl ((Obj.mem_keys_iff o k).mpr h1)
  · right
    rw [if_neg h1] at h
    by_cases h2 : k = "__proto__"
    · rw [if_pos h2] at h
      exact absurd h (by simp)
    · rw [if_neg h2] at h
      by_cases h3 : k ∈ objectPrototypeFunctions
      · rw [if_pos h3] at h
        exact absurd h (by simp)
      · intro hmem
        rcases List.mem_cons.mp hmem with e | e
        · exact h2 e
        · exact h3 e

theorem Analyzer.keys_pushPrice (acc : Obj (List ℚ)) (it : Item) (k : String)
    (h : k ∈ Obj.keys (Analyzer.pushPrice acc it)) : k ∈ Obj.keys acc ∨ k = it.categoria := by
  unfold Analyzer.pushPrice at h
  rw [Obj.keys_modify] at h
  by_cases hk : (Obj.get acc it.categoria).isNone = true
  · rw [if_pos hk, Obj.keys_insertNew] at h
    rcases List.mem_append.mp h with h | h
    · exact Or.inl h
    · exact Or.inr (List.mem_singleton.mp h)
  · rw [if_neg hk] at h
    exact Or.inl h

theorem Analyzer.keys_tally (byCat : Obj CatAcc) (it : Item) (k : String)
    (h : k ∈ Obj.keys (Analyzer.tally byCat it)) : k ∈ Obj.keys byCat ∨ k = it.categoria := by
  unfold Analyzer.tally at h
  rw [Obj.keys_modify, Obj.keys_modify] at h
  by_cases hk : (Obj.get byCat it.categoria).isNone = true
  · rw [if_pos hk, Obj.keys_insertNew] at h
    rcases List.mem_append.mp h with h | h
    · exact Or.inl h
    · exact Or.inr (List.mem_singleton.mp h)
  · rw [if_neg hk] at h
    exact Or.inl h

/-- The grouping of `functional` succeeds only when no category names a member
of `Object.prototype`. -/
theorem Analyzer.groupReduce_noInherited (items : List Item) (acc g : Obj (List ℚ))
    (hacc : ∀ k ∈ Obj.keys acc, k ∉ objectPrototypeKeys)
    (h : Analyzer.groupReduce acc items = Except.ok g) : NoInherited items := by
  induction items generalizing acc with
  | nil => exact fun _ hx => absurd hx (List.not_mem_nil _)
  | cons it t ih =>
    unfold Analyzer.groupReduce Analyzer.groupStep at h
    cases hinh : Obj.inherited acc it.categoria with
    | some v =>
      rw [hinh] at h
      simp at h
    | none =>
      rw [hinh] at h
      simp only at h
      have hit : it.categoria ∉ objectPrototypeKeys := by
        rcases Obj.inherited_none acc it.categoria hinh with h1 | h1
        · exact hacc _ h1
        · exact h1
      have hacc' : ∀ k ∈ Obj.keys (Analyzer.pushPrice acc it), k ∉ objectPrototypeKeys := by
        intro k hk
        rcases Analyzer.keys_pushPrice acc it k hk with h1 | h1
        · exact hacc k h1
        · rw [h1]
          exact hit
      have ht := ih (Analyzer.pushPrice acc it) hacc' h
      intro x hx
      rcases List.mem_cons.mp hx with rfl | hx
      · exact hit
      · exact ht x hx

theorem Analyzer.functional_ok_noInherited (ds : Dataset) (s : Stats)
    (h : Analyzer.functional ds = Except.ok s) : NoInherited ds.records := by
  unfold Analyzer.functional at h
  cases hg : Analyzer.groupReduce [] ds.records with
  | error e => simp [hg] at h
  | ok g =>
    exact Analyzer.groupReduce_noInherited ds.records [] g
      (fun _ hk => absurd hk (by simp [Obj.keys])) hg

/-- No own key of `byCat` names a member of `Object.prototype`. -/
theorem Analyzer.impFold_keys (items : List Item) (s : ImpState)
    (hs : ∀ k ∈ Obj.keys s.byCat, k ∉ objectPrototypeKeys) :
    ∀ k ∈ Obj.keys (items.foldl Analyzer.impStep s).byCat, k ∉ objectPrototypeKeys := by
  induction items generalizing s with
  | nil => exact hs
  | cons it t ih =>
    rw [List.foldl_cons]
    apply ih
    unfold Analyzer.impStep
    cases hinh : Obj.inherited s.byCat it.categoria with
    | some v => cases v <;> exact hs
    | none =>
      intro k hk
      rcases Analyzer.keys_tally s.byCat it k hk with h1 | h1
      · exact hs k h1
      · rw [h1]
        rcases Obj.inherited_none s.byCat it.categoria hinh with h2 | h2
        · exact hs _ h2
        · exact h2

/-- No key of the `avgPriceByCat` of `imperative` names a member of
`Object.prototype`. -/
theorem Analyzer.imperative_keys (ds : Dataset) :
    ∀ k ∈ Obj.keys (Analyzer.imperative ds).avgPriceByCat, k ∉ objectPrototypeKeys := by
  intro k hk
  rw [Analyzer.imperative_records] at hk
  simp only [Obj.keys, List.map_append, List.map_map, List.mem_append] at hk
  rcases hk with hk | hk
  · apply Analyzer.impFold_keys ds.records ⟨0, 0, ExtNum.posInf, ExtNum.negInf, [], false⟩
      (fun _ h => absurd h (by simp [Obj.keys])) k
    simpa [Obj.keys, Function.comp_def] using hk
  · unfold Analyzer.inheritedAvg at hk
    split at hk
    · simp only [List.map_map, List.mem_map, List.mem_filter, List.mem_cons,
        List.mem_singleton, List.not_mem_nil, or_false, Function.comp_apply] at hk
      obtain ⟨x, ⟨hx, _⟩, rfl⟩ := hk
      rcases hx with rfl | rfl <;> decide
    · simp at hk

/-! ## The properties of the specification -/

/-- C1, the claim as stated fails: on a Dataset whose only record has the
category `constructor`, `functional()` raises a `TypeError` while
`imperative()` returns a result, so the two do not return the same result
for every Dataset contents. -/
theorem Analyzer.engines_differ :
    inheritedCase.records = [⟨some 1, "constructor", 10, 3⟩] ∧
    Analyzer.functional inheritedCase = Except.error JsError.typeError ∧
    Analyzer.imperative inheritedCase = ⟨1, 10, 3, ExtNum.fin 10, ExtNum.fin 10, []⟩ ∧
    ¬ (∀ ds : Dataset, Analyzer.functional ds = Except.ok (Analyzer.imperative ds)) := by
  refine ⟨inheritedCase_records, inheritedCase_functional, inheritedCase_imperative, ?_⟩
  intro h
  have := h inheritedCase
  rw [inheritedCase_functional] at this
  exact absurd this (by simp)

/-- C1, amended: for every Dataset contents, `functional()` returns exactly when
no category names a member of `Object.prototype` (none of the five labels of
`cats` does), and whenever it returns, `imperative()` and `functional()`
return the same result: the same `n`, `avgPrice`, `avgRating`, `minPrice` and
`maxPrice`, and `avgPriceByCat` mappings with the same keys and the same
value under every key. -/
theorem Analyzer.engines_agree (ds : Dataset) :
    ((∃ s, Analyzer.functional ds = Except.ok s) ↔ NoInherited ds.records) ∧
    (∀ s, Analyzer.functional ds = Except.ok s → Analyzer.imperative ds = s) ∧
    (NoInherited ds.records →
      Analyzer.functional ds = Except.ok (Analyzer.imperative ds) ∧
      ∃ s, Analyzer.functional ds = Except.ok s ∧
        (Analyzer.imperative ds).n = s.n ∧
        (Analyzer.imperative ds).avgPrice = s.avgPrice ∧
        (Analyzer.imperative ds).avgRating = s.avgRating ∧
        (Analyzer.imperative ds).minPrice = s.minPrice ∧
        (Analyzer.imperative ds).maxPrice = s.maxPrice ∧
        (∀ c, c ∈ Obj.keys (Analyzer.imperative ds).avgPriceByCat
            ↔ c ∈ Obj.keys s.avgPriceByCat) ∧
        (∀ c, Obj.get (Analyzer.imperative ds).avgPriceByCat c
            = Obj.get s.avgPriceByCat c)) ∧
    (∀ c ∈ cats, c ∉ objectPrototypeKeys) := by
  refine ⟨⟨?_, ?_⟩, ?_, ?_, by decide⟩
  · rintro ⟨s, hs⟩
    exact Analyzer.functional_ok_noInherited ds s hs
  · intro h
    exact ⟨_, Analyzer.functional_eq_imperative ds h⟩
  · intro s hs
    have heq := Analyzer.functional_eq_imperative ds
      (Analyzer.functional_ok_noInherited ds s hs)
    rw [heq] at hs
    exact Except.ok.inj hs
  · intro h
    have heq := Analyzer.functional_eq_imperative ds h
    exact ⟨heq, Analyzer.imperative ds, heq, rfl, rfl, rfl, rfl, rfl, fun _ => Iff.rfl,
      fun _ => rfl⟩

/-- A case of C1 as amended: the two engines on the scenario. -/
theorem Analyzer.engines_agree_witness :
    NoInherited (scenario 1 2 3).records ∧
      Analyzer.functional (scenario 1 2 3) = Except.ok (Analyzer.imperative (scenario 1 2 3)) :=
  ⟨scenario_noInherited 1 2 3,
    ((Analyzer.engines_agree (scenario 1 2 3)).2.2.1 (scenario_noInherited 1 2 3)).1⟩

/-- C2: in every state reachable from a new Dataset by `generate`, `add` and
`clear`, and for every `n` and every outcome of the random draws,
`generate(n)` increases `size()` by `n`, keeps the stored records as a prefix,
returns exactly the `n` appended records, and gives them the strictly
increasing, pairwise distinct ids `max + 1, ..., max + n`, where `max` is the
greatest id stored before (`1, ..., n` on an empty Dataset); each of these
ids is greater than every id stored before. -/
theorem Dataset.generate_spec (M : JsMath) (rnd : Nat → UnitDraw) (ds : Dataset) (n : Nat)
    (h : Reachable ds) :
    (Dataset.generate M rnd ds n).2.size = ds.size + n ∧
    (Dataset.generate M rnd ds n).2.items = ds.items ++ (Dataset.generate M rnd ds n).1 ∧
    (Dataset.generate M rnd ds n).2.records = ds.records ++ Dataset.generated M rnd ds n ∧
    (Dataset.generate M rnd ds n).1.length = n ∧
    (Dataset.generated M rnd ds n).length = n ∧
    (Dataset.generated M rnd ds n).map Item.id
      = (List.range n).map (fun (i : Nat) => some (maxId ds.records + 1 + (i : Int))) ∧
    ((Dataset.generated M rnd ds n).map Item.id).Pairwise idLt ∧
    ((Dataset.generated M rnd ds n).map Item.id).Nodup ∧
    (∀ it ∈ ds.records, ∀ it' ∈ Dataset.generated M rnd ds n, idLt it.id it'.id) ∧
    (ds.items = [] → (Dataset.generated M rnd ds n).map Item.id
      = (List.range' 1 n).map (fun (i : Nat) => some (i : Int))) := by
  have hinv := Reachable.counterInv ds h
  have hmax := CounterInv.maxId_succ ds hinv
  obtain ⟨halloc, hall, hpos, hempty, _⟩ := hinv
  have hids := Dataset.generated_ids M rnd ds n
  have hext := idsInv_extend [] (Dataset.generated M rnd ds n) ds.nextId n hids
    List.Pairwise.nil (fun _ hx => absurd hx (List.not_mem_nil _))
  simp only [List.nil_append] at hext
  refine ⟨?_, ?_, Dataset.generate_records M rnd ds n halloc, ?_, ?_, ?_, hext.2.1, hext.1,
    ?_, ?_⟩
  · rw [Dataset.generate_eq]
    simp [Dataset.size]
  · rw [Dataset.generate_eq]
  · rw [Dataset.generate_eq]
    simp
  · rw [Dataset.generated_eq]
    simp
  · rw [hids, hmax]
  · intro it hit it' hit'
    obtain ⟨z, hz, hlt⟩ := hall it hit
    have hmem : it'.id ∈ (Dataset.generated M rnd ds n).map Item.id :=
      List.mem_map_of_mem _ hit'
    rw [hids] at hmem
    obtain ⟨i, _, hi⟩ := List.mem_map.mp hmem
    rw [hz, ← hi]
    show z < (ds.nextId : Int) + (i : Int)
    omega
  · intro he
    rw [hids, hempty he, List.range'_eq_map_range, List.map_map]
    apply List.map_congr_left
    intro i _
    simp only [Function.comp_apply, Option.some.injEq]
    push_cast
    ring

/-- A case of C2: `generate(2)` on the Dataset of the scenario. -/
theorem Dataset.generate_spec_witness :
    Reachable (scenario 1 2 3) ∧
      (Dataset.generated constMath zeroDraws (scenario 1 2 3) 2).map Item.id
        = (List.range 2).map
            (fun (i : Nat) => some (maxId (scenario 1 2 3).records + 1 + (i : Int))) :=
  ⟨Reachable.add _ _
      (Reachable.alloc _ _ (Reachable.alloc _ _ (Reachable.alloc _ _ Reachable.new)))
      (by decide),
    (Dataset.generate_spec constMath zeroDraws (scenario 1 2 3) 2
      (Reachable.add _ _
        (Reachable.alloc _ _ (Reachable.alloc _ _ (Reachable.alloc _ _ Reachable.new)))
        (by decide))).2.2.2.2.2.1⟩

/-- C3, the claim as stated fails: `add` does not preserve the predicate when
it is handed an object the Dataset stores already. On a Dataset with the ids
`[1]`, `add(head(1))` writes the id `2` on the stored object and stores it
again, which leaves the ids `[2, 2]`. -/
theorem Dataset.add_stored_breaks_ids :
    oneRecord.records.map Item.id = [some 1] ∧
    IdsInv oneRecord ∧
    (Dataset.head oneRecord 1).1 = [0] ∧
    (Dataset.add oneRecord (Dataset.head oneRecord 1).1).records.map Item.id
      = [some 2, some 2] ∧
    ¬ IdsInv (Dataset.add oneRecord (Dataset.head oneRecord 1).1) ∧
    ¬ (∀ (ds : Dataset) (args : List Nat), IdsInv ds → IdsInv (Dataset.add ds args)) := by
  have h1 : oneRecord.records.map Item.id = [some 1] := by
    simp [oneRecord, oneObject, Dataset.records, Dataset.add, Dataset.addStep, Dataset.alloc,
      Dataset.new, Function.update]
  have hnext : oneRecord.nextId = 2 := rfl
  have h2 : IdsInv oneRecord := by
    unfold IdsInv
    rw [hnext]
    refine ⟨by rw [h1]; simp, by rw [h1]; simp, ?_⟩
    intro it hit
    have : it.id ∈ oneRecord.records.map Item.id := List.mem_map_of_mem _ hit
    rw [h1, List.mem_singleton] at this
    rw [this]
    show (1 : Int) < ((2 : Nat) : Int)
    decide
  have h3 : (Dataset.head oneRecord 1).1 = [0] := rfl
  have h4 : (Dataset.add oneRecord (Dataset.head oneRecord 1).1).records.map Item.id
      = [some 2, some 2] := by
    rw [h3]
    simp [oneRecord, oneObject, Dataset.records, Dataset.add, Dataset.addStep, Dataset.alloc,
      Dataset.new, Function.update]
  have h5 : ¬ IdsInv (Dataset.add oneRecord (Dataset.head oneRecord 1).1) := by
    intro h
    have := h.1
    rw [h4] at this
    simp at this
  exact ⟨h1, h2, h3, h4, h5, fun h => h5 (h _ _ h2)⟩

/-- C3, amended: the ids of the stored records are pairwise distinct and
strictly increasing in insertion order and `nextId` is greater than each of
them: this holds for a new Dataset; `generate(n)`, `clear()` and `head(k)`
preserve it, and `add(records)` preserves it when the records are pairwise
distinct objects that the Dataset does not store yet; `clear()` leaves no
record and `nextId = 1`. (That `generate` makes new objects is read from the
store: the stored references refer to objects made earlier, as they do in
every reachable state.) -/
theorem Dataset.idsInv_preserved :
    IdsInv Dataset.new ∧
    (∀ (M : JsMath) (rnd : Nat → UnitDraw) (ds : Dataset) (n : Nat),
      ds.Allocated → IdsInv ds → IdsInv (Dataset.generate M rnd ds n).2) ∧
    (∀ ds : Dataset, Reachable ds → ds.Allocated) ∧
    (∀ (ds : Dataset) (args : List Nat),
      FreshArgs ds args → IdsInv ds → IdsInv (Dataset.add ds args)) ∧
    (∀ ds : Dataset, IdsInv (Dataset.clear ds)) ∧
    (∀ (ds : Dataset) (k : Int), IdsInv ds → IdsInv (Dataset.head ds k).2) ∧
    (∀ ds : Dataset, (Dataset.clear ds).items = [] ∧ (Dataset.clear ds).records = [] ∧
      (Dataset.clear ds).nextId = 1) := by
  have hnew : IdsInv Dataset.new := by
    refine ⟨?_, ?_, ?_⟩ <;> simp [Dataset.new, Dataset.records]
  have hclear : ∀ ds : Dataset, IdsInv (Dataset.clear ds) := by
    intro ds
    refine ⟨?_, ?_, ?_⟩ <;> simp [Dataset.clear, Dataset.records]
  refine ⟨hnew, ?_, fun ds h => (Reachable.counterInv ds h).1, ?_, hclear, fun _ _ h => h,
    fun _ => ⟨rfl, rfl, rfl⟩⟩
  · intro M rnd ds n halloc h
    obtain ⟨_, hp, hlt⟩ := h
    have hext := idsInv_extend ds.records (Dataset.generated M rnd ds n) ds.nextId n
      (Dataset.generated_ids M rnd ds n) hp hlt
    have hnext : (Dataset.generate M rnd ds n).2.nextId = ds.nextId + n := by
      rw [Dataset.generate_eq]
    unfold IdsInv
    rw [Dataset.generate_records M rnd ds n halloc, hnext]
    exact hext
  · intro ds args hfresh h
    obtain ⟨_, hp, hlt⟩ := h
    have hext := idsInv_extend ds.records (addedRecords ds.heap ds.nextId args) ds.nextId
      args.length (addedRecords_ids ds.heap ds.nextId args) hp hlt
    unfold IdsInv
    rw [Dataset.add_records ds args hfresh, (Dataset.add_fields ds args).2.1]
    exact hext

/-- A case of C3 as amended: the invariant after `add` of three new objects. -/
theorem Dataset.idsInv_preserved_witness :
    FreshArgs (scenarioObjects 1 2 3) [0, 1, 2] ∧ IdsInv (scenarioObjects 1 2 3) ∧
      IdsInv (scenario 1 2 3) :=
  ⟨⟨by decide, by decide⟩,
    ⟨by simp [scenarioObjects, Dataset.alloc, Dataset.new, Dataset.records],
      by simp [scenarioObjects, Dataset.alloc, Dataset.new, Dataset.records],
      by simp [scenarioObjects, Dataset.alloc, Dataset.new, Dataset.records]⟩,
    Dataset.idsInv_preserved.2.2.2.1 (scenarioObjects 1 2 3) [0, 1, 2]
      ⟨by decide, by decide⟩
      ⟨by simp [scenarioObjects, Dataset.alloc, Dataset.new, Dataset.records],
        by simp [scenarioObjects, Dataset.alloc, Dataset.new, Dataset.records],
        by simp [scenarioObjects, Dataset.alloc, Dataset.new, Dataset.records]⟩⟩

/-- C4, the claim as stated fails: on a Dataset whose only record has the
category `constructor`, the `avgPriceByCat` of `imperative()` is empty, so
the category of the record is not a key, and `functional()` returns no
mapping at all. -/
theorem Analyzer.avgPriceByCat_inherited :
    (∃ it ∈ inheritedCase.records, it.categoria = "constructor") ∧
    (Analyzer.imperative inheritedCase).avgPriceByCat = [] ∧
    "constructor" ∉ Obj.keys (Analyzer.imperative inheritedCase).avgPriceByCat ∧
    Analyzer.functional inheritedCase = Except.error JsError.typeError ∧
    ¬ (∀ (ds : Dataset) (c : String),
        c ∈ Obj.keys (Analyzer.imperative ds).avgPriceByCat
          ↔ ∃ it ∈ ds.records, it.categoria = c) := by
  have h1 : ∃ it ∈ inheritedCase.records, it.categoria = "constructor" := by
    rw [inheritedCase_records]
    exact ⟨_, List.mem_singleton.mpr rfl, rfl⟩
  have h2 : (Analyzer.imperative inheritedCase).avgPriceByCat = [] := by
    rw [inheritedCase_imperative]
  have h3 : "constructor" ∉ Obj.keys (Analyzer.imperative inheritedCase).avgPriceByCat := by
    rw [h2]
    simp [Obj.keys]
  exact ⟨h1, h2, h3, inheritedCase_functional, fun h => h3 ((h _ _).mpr h1)⟩

/-- C4, amended: for every Dataset contents in which no category names a
member of `Object.prototype`, the `avgPriceByCat` of `imperative()`, which is
also the one `functional()` returns, has each key once, has as keys exactly
the categories of the records, and holds under a category the sum of the
prices of its records divided by their number; the keys are the categories
of the records for no other Dataset contents. For categories
`hogar, hogar, libros` with prices `10, 20, 30` the mapping is
`{ hogar: 15, libros: 30 }`, with `avgPrice` 20 and `n` 3. -/
theorem Analyzer.avgPriceByCat_spec (ds : Dataset) :
    (NoInherited ds.records →
      (∃ s, Analyzer.functional ds = Except.ok s ∧
        s.avgPriceByCat = (Analyzer.imperative ds).avgPriceByCat) ∧
      (Obj.keys (Analyzer.imperative ds).avgPriceByCat).Nodup ∧
      (∀ c, c ∈ Obj.keys (Analyzer.imperative ds).avgPriceByCat
          ↔ ∃ it ∈ ds.records, it.categoria = c) ∧
      (∀ c, Obj.get (Analyzer.imperative ds).avgPriceByCat c
          = if pricesOf c ds.records = [] then none
            else some (JsNum.num
              ((pricesOf c ds.records).sum / ((pricesOf c ds.records).length : ℚ))))) ∧
    ((∀ c, c ∈ Obj.keys (Analyzer.imperative ds).avgPriceByCat
        ↔ ∃ it ∈ ds.records, it.categoria = c) → NoInherited ds.records) ∧
    (∀ r₁ r₂ r₃ : ℚ,
      Analyzer.functional (scenario r₁ r₂ r₃)
          = Except.ok (Analyzer.imperative (scenario r₁ r₂ r₃)) ∧
        (Analyzer.imperative (scenario r₁ r₂ r₃)).avgPriceByCat
          = [("hogar", JsNum.num 15), ("libros", JsNum.num 30)] ∧
        (Analyzer.imperative (scenario r₁ r₂ r₃)).avgPrice = 20 ∧
        (Analyzer.imperative (scenario r₁ r₂ r₃)).n = 3) := by
  refine ⟨?_, ?_, ?_⟩
  · intro h
    have heq := Analyzer.functional_eq_imperative ds h
    obtain ⟨s, hs, havg⟩ := Analyzer.functional_avg ds h
    have hsi : s = Analyzer.imperative ds := by
      rw [heq] at hs
      exact (Except.ok.inj hs).symm
    have hm : (Analyzer.imperative ds).avgPriceByCat
        = (ds.records.foldl Analyzer.pushPrice []).map
            (fun e => (e.1, JsNum.num (mean e.2))) := by
      rw [← hsi]
      exact havg
    obtain ⟨hnd, hget⟩ := Analyzer.groups_spec ds.records
    have hval : ∀ c, Obj.get (Analyzer.imperative ds).avgPriceByCat c
        = if pricesOf c ds.records = [] then none
          else some (JsNum.num
            ((pricesOf c ds.records).sum / ((pricesOf c ds.records).length : ℚ))) := by
      intro c
      rw [hm, Obj.get_map (fun vals => JsNum.num (mean vals)), hget c]
      by_cases hp : pricesOf c ds.records = []
      · simp [hp]
      · have hl : (pricesOf c ds.records).length ≠ 0 := fun h => hp (List.length_eq_zero.mp h)
        simp [hp, mean, hl, sumReduce_eq_sum]
    refine ⟨⟨s, hs, by rw [hsi]⟩, ?_, ?_, hval⟩
    · rw [hm]
      simpa [Obj.keys, List.map_map, Function.comp_def] using hnd
    · intro c
      rw [Obj.mem_keys_iff, hval c]
      by_cases hp : pricesOf c ds.records = []
      · have := (pricesOf_eq_nil_iff c ds.records).mp hp
        simp [hp, this]
      · have : ∃ it ∈ ds.records, it.categoria = c := by
          by_contra hne
          exact hp ((pricesOf_eq_nil_iff c ds.records).mpr hne)
        simp [hp, this]
  · intro hkeys it hit
    exact Analyzer.imperative_keys ds it.categoria ((hkeys it.categoria).mpr ⟨it, hit, rfl⟩)
  · intro r₁ r₂ r₃
    refine ⟨Analyzer.functional_eq_imperative _ (scenario_noInherited r₁ r₂ r₃), ?_, ?_, ?_⟩ <;>
      rw [scenario_imperative]

/-- A case of C4 as amended: the mapping of the scenario under `hogar`. -/
theorem Analyzer.avgPriceByCat_spec_witness :
    NoInherited (scenario 1 2 3).records ∧
      ("hogar" ∈ Obj.keys (Analyzer.imperative (scenario 1 2 3)).avgPriceByCat
        ↔ ∃ it ∈ (scenario 1 2 3).records, it.categoria = "hogar") :=
  ⟨scenario_noInherited 1 2 3,
    ((Analyzer.avgPriceByCat_spec (scenario 1 2 3)).1 (scenario_noInherited 1 2 3)).2.2.1
      "hogar"⟩

/-- C5: on a Dataset without records, and so after `clear()` followed by
`generate(0)`, `imperative()` and `functional()` both return `n = 0`,
`avgPrice = 0`, `avgRating = 0` and an empty `avgPriceByCat` (with the
`Infinity` and `-Infinity` the extrema start from), and `functional()` raises
no exception. -/
theorem Analyzer.empty_stats (M : JsMath) (rnd : Nat → UnitDraw) (ds : Dataset)
    (heap : Nat → Item) (brk k : Nat) :
    (Dataset.generate M rnd (Dataset.clear ds) 0).2.items = [] ∧
    (Dataset.generate M rnd (Dataset.clear ds) 0).2.records = [] ∧
    Analyzer.imperative (Dataset.generate M rnd (Dataset.clear ds) 0).2
      = ⟨0, 0, 0, ExtNum.posInf, ExtNum.negInf, []⟩ ∧
    Analyzer.functional (Dataset.generate M rnd (Dataset.clear ds) 0).2
      = Except.ok ⟨0, 0, 0, ExtNum.posInf, ExtNum.negInf, []⟩ ∧
    Analyzer.imperative ⟨heap, brk, [], k⟩ = ⟨0, 0, 0, ExtNum.posInf, ExtNum.negInf, []⟩ ∧
    Analyzer.functional ⟨heap, brk, [], k⟩
      = Except.ok ⟨0, 0, 0, ExtNum.posInf, ExtNum.negInf, []⟩ := by
  refine ⟨rfl, rfl, ?_, ?_, ?_, ?_⟩ <;>
    simp [Analyzer.imperative, Analyzer.functional, Analyzer.groupReduce,
      Analyzer.inheritedAvg, Dataset.generate, Dataset.clear, Dataset.size, Dataset.records]

/-- C6, the claim as stated fails: with a size that parses to `NaN`, with size
`0` and with size `-3`, `handleGenerate` turns a Dataset that holds one record
into the empty Dataset with `nextId = 1`. -/
theorem handleGenerate_mutates :
    oneRecord.records = [⟨some 1, "hogar", 10, 3⟩] ∧ oneRecord.nextId = 2 ∧
    ((handleGenerate constMath zeroDraws none oneRecord).records = [] ∧
      (handleGenerate constMath zeroDraws none oneRecord).nextId = 1) ∧
    ((handleGenerate constMath zeroDraws (some 0) oneRecord).records = [] ∧
      (handleGenerate constMath zeroDraws (some 0) oneRecord).nextId = 1) ∧
    ((handleGenerate constMath zeroDraws (some (-3)) oneRecord).records = [] ∧
      (handleGenerate constMath zeroDraws (some (-3)) oneRecord).nextId = 1) ∧
    ¬ (∀ (M : JsMath) (rnd : Nat → UnitDraw) (size : Option Int) (ds : Dataset),
        (size = none ∨ ∃ z, size = some z ∧ z ≤ 0) → handleGenerate M rnd size ds = ds) := by
  have h1 : oneRecord.records = [⟨some 1, "hogar", 10, 3⟩] := by
    simp [oneRecord, oneObject, Dataset.records, Dataset.add, Dataset.addStep, Dataset.alloc,
      Dataset.new, Function.update]
  refine ⟨h1, rfl, ⟨rfl, rfl⟩, ⟨rfl, rfl⟩, ⟨rfl, rfl⟩, ?_⟩
  intro h
  have := h constMath zeroDraws none oneRecord (Or.inl rfl)
  have hnext := congrArg Dataset.nextId this
  have h2 : (handleGenerate constMath zeroDraws none oneRecord).nextId = 1 := rfl
  have h3 : oneRecord.nextId = 2 := rfl
  rw [h2, h3] at hnext
  exact absurd hnext (by decide)

/-- C6, amended: for a size that parses to `NaN` or is not positive,
`handleGenerate` does not reject the request: it clears the Dataset and
generates no record, so the Dataset afterwards has no record and
`nextId = 1`, and it is the Dataset from before only if that one was already
in this state. -/
theorem handleGenerate_invalid_size (M : JsMath) (rnd : Nat → UnitDraw) (size : Option Int)
    (ds : Dataset) (h : size = none ∨ ∃ z, size = some z ∧ z ≤ 0) :
    handleGenerate M rnd size ds = ⟨ds.heap, ds.brk, [], 1⟩ ∧
    (handleGenerate M rnd size ds).records = [] ∧
    (handleGenerate M rnd size ds = ds ↔ ds.items = [] ∧ ds.nextId = 1) := by
  have h0 : loopCount size = 0 := by
    rcases h with rfl | ⟨z, rfl, hz⟩
    · rfl
    · simp [loopCount, hz]
  have hres : handleGenerate M rnd size ds = ⟨ds.heap, ds.brk, [], 1⟩ := by
    simp [handleGenerate, h0, Dataset.generate, Dataset.clear]
  refine ⟨hres, by rw [hres]; rfl, ?_⟩
  rw [hres]
  constructor
  · intro e
    rw [← e]
    exact ⟨rfl, rfl⟩
  · rintro ⟨e1, e2⟩
    obtain ⟨hp, b, it, nx⟩ := ds
    simp only at e1 e2
    subst e1 e2
    rfl

/-- A case of C6 as amended: size `-3` on a Dataset with one record. -/
theorem handleGenerate_invalid_size_witness :
    ((some (-3) : Option Int) = none ∨ ∃ z, (some (-3) : Option Int) = some z ∧ z ≤ 0) ∧
      (handleGenerate constMath zeroDraws (some (-3)) oneRecord).records = [] :=
  ⟨Or.inr ⟨-3, rfl, by decide⟩,
    (handleGenerate_invalid_size constMath zeroDraws (some (-3)) oneRecord
      (Or.inr ⟨-3, rfl, by decide⟩)).2.1⟩

/-- C7, the claim as stated fails: when the array holds the same object
twice, `add` on a new Dataset (counter `1`) leaves the ids `[2, 2]`, not
`[1, 2]`; and when it holds an object the Dataset stores, `add` writes the new
id on the stored record. -/
theorem Dataset.add_same_object :
    oneObject.records = [] ∧ oneObject.nextId = 1 ∧
    (Dataset.add oneObject [0, 0]).records.map Item.id = [some 2, some 2] ∧
    oneRecord.records = [⟨some 1, "hogar", 10, 3⟩] ∧
    (Dataset.add oneRecord [0]).records
      = [⟨some 2, "hogar", 10, 3⟩, ⟨some 2, "hogar", 10, 3⟩] ∧
    ¬ (∀ (ds : Dataset) (args : List Nat),
        (Dataset.add ds args).records = ds.records ++ addedRecords ds.heap ds.nextId args) := by
  have h1 : (Dataset.add oneObject [0, 0]).records.map Item.id = [some 2, some 2] := by
    simp [oneObject, Dataset.records, Dataset.add, Dataset.addStep, Dataset.alloc,
      Dataset.new, Function.update]
  have h2 : oneRecord.records = [⟨some 1, "hogar", 10, 3⟩] := by
    simp [oneRecord, oneObject, Dataset.records, Dataset.add, Dataset.addStep, Dataset.alloc,
      Dataset.new, Function.update]
  have h3 : (Dataset.add oneRecord [0]).records
      = [⟨some 2, "hogar", 10, 3⟩, ⟨some 2, "hogar", 10, 3⟩] := by
    simp [oneRecord, oneObject, Dataset.records, Dataset.add, Dataset.addStep, Dataset.alloc,
      Dataset.new, Function.update]
  refine ⟨rfl, rfl, h1, h2, h3, ?_⟩
  intro h
  have := h oneObject [0, 0]
  have hids := congrArg (List.map Item.id) this
  rw [h1] at hids
  simp [oneObject, Dataset.records, Dataset.alloc, Dataset.new, addedRecords] at hids

/-- C7, amended: for a Dataset with counter `m` and every list of `k` input
records, `add(records)` stores the `k` references after the stored ones in
their order, sets the counter to `m + k`, and leaves the category, price and
rating of every object as they are; when the input records are pairwise
distinct objects that the Dataset does not store yet, the stored records stay
as they are and the appended records have the ids `m, ..., m + k - 1` with
their own category, price and rating, whatever id they came with. -/
theorem Dataset.add_spec (ds : Dataset) (args : List Nat) :
    (Dataset.add ds args).nextId = ds.nextId + args.length ∧
    (Dataset.add ds args).items = ds.items ++ args ∧
    (Dataset.add ds args).records.length = ds.records.length + args.length ∧
    (∀ a, ((Dataset.add ds args).heap a).categoria = (ds.heap a).categoria ∧
      ((Dataset.add ds args).heap a).precio = (ds.heap a).precio ∧
      ((Dataset.add ds args).heap a).rating = (ds.heap a).rating) ∧
    (FreshArgs ds args →
      (Dataset.add ds args).records.take ds.records.length = ds.records ∧
      (Dataset.add ds args).records.drop ds.records.length
        = addedRecords ds.heap ds.nextId args ∧
      (∀ i, (Dataset.add ds args).records[ds.records.length + i]?
        = (args[i]?).map (fun a =>
            (⟨some ((ds.nextId : Int) + (i : Int)), (ds.heap a).categoria, (ds.heap a).precio,
              (ds.heap a).rating⟩ : Item))) ∧
      (∀ a ∈ ds.items, (Dataset.add ds args).heap a = ds.heap a)) := by
  obtain ⟨hitems, hnext, _⟩ := Dataset.add_fields ds args
  refine ⟨hnext, hitems, ?_, ?_, ?_⟩
  · simp [Dataset.records, hitems]
  · intro a
    obtain ⟨h1, h2, h3, _⟩ := Dataset.add_heap ds args a
    exact ⟨h1, h2, h3⟩
  · intro hfresh
    have hrec := Dataset.add_records ds args hfresh
    refine ⟨?_, ?_, ?_, ?_⟩
    · rw [hrec]
      simp
    · rw [hrec]
      simp
    · intro i
      rw [hrec, List.getElem?_append_right (Nat.le_add_right _ _), Nat.add_sub_cancel_left,
        addedRecords_getElem?]
    · intro a ha
      exact (Dataset.add_heap ds args a).2.2.2 (fun hmem => hfresh.2 a hmem ha)

/-- A case of C7 as amended: `add` of the three objects of the scenario, two of
which came with the id `7`. -/
theorem Dataset.add_spec_witness :
    FreshArgs (scenarioObjects 1 2 3) [0, 1, 2] ∧
      (Dataset.add (scenarioObjects 1 2 3) [0, 1, 2]).records.drop
          (scenarioObjects 1 2 3).records.length
        = addedRecords (scenarioObjects 1 2 3).heap (scenarioObjects 1 2 3).nextId [0, 1, 2] :=
  ⟨⟨by decide, by decide⟩,
    ((Dataset.add_spec (scenarioObjects 1 2 3) [0, 1, 2]).2.2.2.2
      ⟨by decide, by decide⟩).2.1⟩

/-- C8, the claim as stated fails: on a Dataset of three records `head(-1)`
returns two records, which is more than `min(-1, 3)`. -/
theorem Dataset.head_negative :
    (scenario 1 2 3).size = 3 ∧
    (Dataset.head (scenario 1 2 3) (-1)).1 = [0, 1] ∧
    (Dataset.head (scenario 1 2 3) (-1)).1.map (scenario 1 2 3).heap
      = [⟨some 1, "hogar", 10, 1⟩, ⟨some 2, "hogar", 20, 2⟩] ∧
    ¬ (((Dataset.head (scenario 1 2 3) (-1)).1.length : Int)
      ≤ min (-1 : Int) (((scenario 1 2 3).size : Nat) : Int)) := by
  have h1 : (Dataset.head (scenario 1 2 3) (-1)).1 = [0, 1] := rfl
  refine ⟨rfl, h1, ?_, ?_⟩
  · rw [h1]
    simp [scenario, scenarioObjects, Dataset.add, Dataset.addStep, Dataset.alloc,
      Dataset.new, Function.update]
  · rw [h1]
    decide

/-- C8, amended: for every Dataset and every integer `k`, `head(k)` returns a
prefix of the stored records and leaves the Dataset as it is; for `k >= 0`
the prefix has `min(k, size())` records, for `k < 0` it has
`max(size() + k, 0)` records. -/
theorem Dataset.head_spec (ds : Dataset) (k : Int) :
    (Dataset.head ds k).1 <+: ds.items ∧
    (Dataset.head ds k).1.map ds.heap <+: ds.records ∧
    (Dataset.head ds k).2 = ds ∧
    (0 ≤ k → ((Dataset.head ds k).1.length : Int) = min k (ds.size : Int)) ∧
    (k < 0 → ((Dataset.head ds k).1.length : Int) = max ((ds.size : Int) + k) 0) := by
  refine ⟨⟨ds.items.drop _, List.take_append_drop _ _⟩, ?_, rfl, ?_, ?_⟩
  · obtain ⟨t, ht⟩ : (Dataset.head ds k).1 <+: ds.items :=
      ⟨ds.items.drop _, List.take_append_drop _ _⟩
    refine ⟨t.map ds.heap, ?_⟩
    unfold Dataset.records
    rw [← List.map_append, ht]
  · intro hk
    simp only [Dataset.head, Dataset.slice0, Dataset.size, List.length_take,
      if_neg (not_lt.mpr hk)]
    omega
  · intro hk
    simp only [Dataset.head, Dataset.slice0, Dataset.size, List.length_take, if_pos hk]
    omega

/-- A case of C8 as amended: `head(2)` and `head(-1)` on the Dataset of the
scenario. -/
theorem Dataset.head_spec_witness :
    ((0 : Int) ≤ 2 ∧
      ((Dataset.head (scenario 1 2 3) 2).1.length : Int)
        = min 2 ((scenario 1 2 3).size : Int)) ∧
    ((-1 : Int) < 0 ∧
      ((Dataset.head (scenario 1 2 3) (-1)).1.length : Int)
        = max (((scenario 1 2 3).size : Int) + (-1)) 0) :=
  ⟨⟨by decide, (Dataset.head_spec (scenario 1 2 3) 2).2.2.2.1 (by decide)⟩,
    ⟨by decide, (Dataset.head_spec (scenario 1 2 3) (-1)).2.2.2.2 (by decide)⟩⟩

/-- C9: for every Dataset with at least one record, the `minPrice` of
`imperative()` and of `functional()` is the least price of the records (the
price of one of them and at most the price of each) and the `maxPrice` is the
greatest; `imperative()` always returns, `functional()` returns whenever no
category names a member of `Object.prototype`; prices `10, 20, 30` give
`minPrice` 10 and `maxPrice` 30. -/
theorem Analyzer.extrema_spec (ds : Dataset) (h : ds.items ≠ []) :
    IsLeastPrice (Analyzer.imperative ds).minPrice ds.records ∧
    IsGreatestPrice (Analyzer.imperative ds).maxPrice ds.records ∧
    (∀ s, Analyzer.functional ds = Except.ok s →
      IsLeastPrice s.minPrice ds.records ∧ IsGreatestPrice s.maxPrice ds.records) ∧
    (NoInherited ds.records → ∃ s, Analyzer.functional ds = Except.ok s ∧
      IsLeastPrice s.minPrice ds.records ∧ IsGreatestPrice s.maxPrice ds.records) ∧
    (∀ r₁ r₂ r₃ : ℚ,
      (∃ s, Analyzer.functional (scenario r₁ r₂ r₃) = Except.ok s ∧
        s.minPrice = ExtNum.fin 10 ∧ s.maxPrice = ExtNum.fin 30) ∧
        (Analyzer.imperative (scenario r₁ r₂ r₃)).minPrice = ExtNum.fin 10 ∧
        (Analyzer.imperative (scenario r₁ r₂ r₃)).maxPrice = ExtNum.fin 30) := by
  have hne : ds.records ≠ [] := by
    intro he
    apply h
    have := congrArg List.length he
    simp only [Dataset.records, List.length_map, List.length_nil] at this
    exact List.length_eq_zero.mp this
  have hmin := Analyzer.fold_min_least ds.records hne
  have hmax := Analyzer.fold_max_greatest ds.records hne
  obtain ⟨i1, i2⟩ := Analyzer.imperative_extrema ds
  have hfun : ∀ s, Analyzer.functional ds = Except.ok s →
      IsLeastPrice s.minPrice ds.records ∧ IsGreatestPrice s.maxPrice ds.records := by
    intro s hs
    obtain ⟨f1, f2⟩ := Analyzer.functional_extrema ds s hs
    rw [f1, f2]
    exact ⟨hmin, hmax⟩
  refine ⟨by rw [i1]; exact hmin, by rw [i2]; exact hmax, hfun, ?_, ?_⟩
  · intro hno
    have heq := Analyzer.functional_eq_imperative ds hno
    exact ⟨_, heq, hfun _ heq⟩
  · intro r₁ r₂ r₃
    have heq := Analyzer.functional_eq_imperative _ (scenario_noInherited r₁ r₂ r₃)
    refine ⟨⟨_, heq, ?_, ?_⟩, ?_, ?_⟩ <;> rw [scenario_imperative]

/-- A case of C9: the least and the greatest price of the scenario. -/
theorem Analyzer.extrema_spec_witness :
    (scenario 1 2 3).items ≠ [] ∧
      IsLeastPrice (Analyzer.imperative (scenario 1 2 3)).minPrice (scenario 1 2 3).records ∧
      IsGreatestPrice (Analyzer.imperative (scenario 1 2 3)).maxPrice
        (scenario 1 2 3).records :=
  ⟨by decide,
    (Analyzer.extrema_spec (scenario 1 2 3) (by decide)).1,
    (Analyzer.extrema_spec (scenario 1 2 3) (by decide)).2.1⟩

theorem clamp_mem (x lo hi : ℚ) (h : lo ≤ hi) : lo ≤ clamp x lo hi ∧ clamp x lo hi ≤ hi := by
  unfold clamp
  exact ⟨le_min h (le_max_left _ _), min_le_left _ _⟩

/-- C10: for every outcome of the random draws and of the `Math` functions,
every record that `generate` creates has `1 <= price <= 999`, so `price > 0`,
and `1 <= rating <= 5`; `clamp(x, lo, hi)` with `lo <= hi` lies in `[lo, hi]`
and is `x` when `lo <= x <= hi`. -/
theorem Dataset.generate_clamped (M : JsMath) (rnd : Nat → UnitDraw) (ds : Dataset) (n : Nat) :
    (∀ it ∈ Dataset.generated M rnd ds n,
      1 ≤ it.precio ∧ it.precio ≤ 999 ∧ 0 < it.precio ∧ 1 ≤ it.rating ∧ it.rating ≤ 5) ∧
    (∀ x lo hi : ℚ, lo ≤ hi → lo ≤ clamp x lo hi ∧ clamp x lo hi ≤ hi) ∧
    (∀ x lo hi : ℚ, lo ≤ x → x ≤ hi → clamp x lo hi = x) := by
  refine ⟨?_, clamp_mem, ?_⟩
  · intro it hit
    rw [Dataset.generated_eq] at hit
    obtain ⟨i, _, rfl⟩ := List.mem_map.mp hit
    have hp := clamp_mem
      (baseOf (pickIndex (rnd (5 * i))) +
        M.exp (randn M (rnd (5 * i + 1)) (rnd (5 * i + 2)) * 0.6 + 2) / 10 - 5) 1 999
      (by norm_num)
    have hr := clamp_mem (3.2 + randn M (rnd (5 * i + 3)) (rnd (5 * i + 4)) * 0.8) 1 5
      (by norm_num)
    exact ⟨hp.1, hp.2, lt_of_lt_of_le (by norm_num) hp.1, hr.1, hr.2⟩
  · intro x lo hi h1 h2
    unfold clamp
    rw [max_eq_right h1, min_eq_right h2]

/-- A case of C10: the record of `generate(1)` on a new Dataset, and
`clamp(5000, 1, 999)`. -/
theorem Dataset.generate_clamped_witness :
    mkItem constMath zeroDraws 0 1 ∈ Dataset.generated constMath zeroDraws Dataset.new 1 ∧
      (1 ≤ (mkItem constMath zeroDraws 0 1).precio ∧
        (mkItem constMath zeroDraws 0 1).precio ≤ 999) ∧
      ((1 : ℚ) ≤ 999 ∧ clamp 5000 1 999 ≤ 999) :=
  ⟨List.mem_singleton.mpr rfl,
    ⟨((Dataset.generate_clamped constMath zeroDraws Dataset.new 1).1 _
        (List.mem_singleton.mpr rfl)).1,
      ((Dataset.generate_clamped constMath zeroDraws Dataset.new 1).1 _
        (List.mem_singleton.mpr rfl)).2.1⟩,
    ⟨by norm_num,
      ((Dataset.generate_clamped constMath zeroDraws Dataset.new 1).2.1 5000 1 999
        (by norm_num)).2⟩⟩

end ParadigmsWeb
